import Mathlib

/-!
# Hash and equality dispatch for interface values (`libgo/go/runtime/alg.go`)

A shallow embedding of the hashing and equality dispatchers of the gccgo runtime.

* A machine word (`uintptr`, `unsafe.Pointer`) is a natural number; arithmetic that can
  overflow is reduced modulo `2 ^ (8 * PtrSize)` explicitly.
* `panic(errorString(msg))` is `Except.error msg`; a normal return is `Except.ok`.
* The memory read through the pointers handed to a type's hash or equality function is
  fixed and implicit: such a function is a pure function of its pointer and size arguments.
* `sys.PtrSize` is a parameter of every definition that depends on it.
-/

namespace Runtime

/-- Modelled from the spec: the declaration of the type descriptor `_type` is not in `alg.go`.
The fields `size`, `hashfn`, `equalfn` and `string` are the ones `alg.go` reads; `isDirect`
and `identity` are the two further attributes the specification gives a descriptor.  A nil
function pointer is `none`. -/
structure _type where
  size : Nat
  hashfn : Option (Nat → Nat → Nat → Nat)
  equalfn : Option (Nat → Nat → Nat → Bool)
  string : String
  isDirect : Bool
  identity : Nat

/-- Modelled from the spec: the method table an `iface` points to is declared outside
`alg.go`; its first field is the type descriptor, read in `alg.go` as `*(**_type)(tab)`. -/
structure itab where
  typ : _type

/-- Modelled from the spec: the method-table representation `iface`, declared outside
`alg.go`; `tab = none` is the nil pointer. -/
structure iface where
  tab : Option itab
  data : Nat

/-- Modelled from the spec: the valueless representation `eface`, declared outside
`alg.go`; `_type = none` is the nil pointer. -/
structure eface where
  _type : Option _type
  data : Nat

/-- The part of memory `interhash` and `nilinterhash` read through their argument `p`:
the interface value stored at an address. -/
structure Heap where
  loadIface : Nat → iface
  loadEface : Nat → eface

/-- Modelled from the spec: `isDirectIface` is defined outside `alg.go`; it reports the
descriptor's direct (inline storage) flag. -/
def isDirectIface (t : _type) : Bool :=
  t.isDirect

/-- Modelled from the spec: `eqtype` is defined outside `alg.go`.  Two descriptors are the
same type iff their identity matches; a nil pointer is the same type as nil only. -/
def eqtype (t1 t2 : Option _type) : Bool :=
  match t1, t2 with
  | none, none => true
  | some a, some b => a.identity == b.identity
  | _, _ => false

/-- The number of values of a machine word, `2 ^ w` for the word width `w = 8 * PtrSize`. -/
def wordMod (PtrSize : Nat) : Nat :=
  2 ^ (8 * PtrSize)

/-- The constant `c0`: the expression of `alg.go` in exact integer arithmetic with truncating
division, converted to `uintptr`. -/
def c0 (PtrSize : Nat) : Nat :=
  (Int.toNat (Int.tdiv (8 - (PtrSize : Int)) 4 * 2860486313
    + Int.tdiv ((PtrSize : Int) - 4) 4 * 33054211828000289)) % wordMod PtrSize

/-- The constant `c1`, as `c0`. -/
def c1 (PtrSize : Nat) : Nat :=
  (Int.toNat (Int.tdiv (8 - (PtrSize : Int)) 4 * 3267000013
    + Int.tdiv ((PtrSize : Int) - 4) 4 * 23344194077549503)) % wordMod PtrSize

/-- The address of the field `data` of an interface value stored at `p`: `data` is the second
of two pointer-sized fields. -/
def dataAddr (PtrSize p : Nat) : Nat :=
  p + PtrSize

/-- The function `interhash`: hash of the `iface` stored at `p` under the seed `h`. -/
def interhash (PtrSize : Nat) (mem : Heap) (p h size : Nat) : Except String Nat :=
  let a := mem.loadIface p
  let tab := a.tab
  match tab with
  | none => .ok h
  | some tab =>
    let t := tab.typ
    let fn := t.hashfn
    match fn with
    | none => .error ("hash of unhashable type " ++ t.string)
    | some fn =>
      if isDirectIface t then
        .ok ((c1 PtrSize * fn (dataAddr PtrSize p) (h ^^^ c0 PtrSize) t.size) % wordMod PtrSize)
      else
        .ok ((c1 PtrSize * fn a.data (h ^^^ c0 PtrSize) t.size) % wordMod PtrSize)

/-- The function `nilinterhash`: hash of the `eface` stored at `p` under the seed `h`. -/
def nilinterhash (PtrSize : Nat) (mem : Heap) (p h size : Nat) : Except String Nat :=
  let a := mem.loadEface p
  let t := a._type
  match t with
  | none => .ok h
  | some t =>
    let fn := t.hashfn
    match fn with
    | none => .error ("hash of unhashable type " ++ t.string)
    | some fn =>
      if isDirectIface t then
        .ok ((c1 PtrSize * fn (dataAddr PtrSize p) (h ^^^ c0 PtrSize) t.size) % wordMod PtrSize)
      else
        .ok ((c1 PtrSize * fn a.data (h ^^^ c0 PtrSize) t.size) % wordMod PtrSize)

/-- The function `efaceeq`. -/
def efaceeq (x y : eface) : Except String Bool :=
  let t := x._type
  if !eqtype t y._type then
    .ok false
  else
    match t with
    | none => .ok true
    | some t =>
      let eq := t.equalfn
      match eq with
      | none => .error ("comparing uncomparable type " ++ t.string)
      | some eq =>
        if isDirectIface t then
          .ok (x.data == y.data)
        else
          .ok (eq x.data y.data t.size)

/-- The function `ifaceeq`. -/
def ifaceeq (x y : iface) : Except String Bool :=
  let xtab := x.tab
  match xtab, y.tab with
  | none, none => .ok true
  | none, some _ => .ok false
  | some _, none => .ok false
  | some xtab, some ytab =>
    let t := xtab.typ
    if !eqtype (some t) (some ytab.typ) then
      .ok false
    else
      let eq := t.equalfn
      match eq with
      | none => .error ("comparing uncomparable type " ++ t.string)
      | some eq =>
        if isDirectIface t then
          .ok (x.data == y.data)
        else
          .ok (eq x.data y.data t.size)

/-- The function `ifaceefaceeq`. -/
def ifaceefaceeq (x : iface) (y : eface) : Except String Bool :=
  match x.tab, y._type with
  | none, none => .ok true
  | none, some _ => .ok false
  | some _, none => .ok false
  | some xtab, some yt =>
    let xt := xtab.typ
    if !eqtype (some xt) (some yt) then
      .ok false
    else
      let eq := xt.equalfn
      match eq with
      | none => .error ("comparing uncomparable type " ++ xt.string)
      | some eq =>
        if isDirectIface xt then
          .ok (x.data == y.data)
        else
          .ok (eq x.data y.data xt.size)

/-- The function `interequal`. -/
def interequal (mem : Heap) (p q size : Nat) : Except String Bool :=
  ifaceeq (mem.loadIface p) (mem.loadIface q)

/-- The function `nilinterequal`. -/
def nilinterequal (mem : Heap) (p q size : Nat) : Except String Bool :=
  efaceeq (mem.loadEface p) (mem.loadEface q)

/-- The function `ifacevaleq`: `x` against the unboxed pair of the non-nil descriptor `t` and
the data word `p`. -/
def ifacevaleq (x : iface) (t : _type) (p : Nat) : Except String Bool :=
  match x.tab with
  | none => .ok false
  | some xtab =>
    let xt := xtab.typ
    if !eqtype (some xt) (some t) then
      .ok false
    else
      let eq := t.equalfn
      match eq with
      | none => .error ("comparing uncomparable type " ++ t.string)
      | some eq =>
        if isDirectIface t then
          .ok (x.data == p)
        else
          .ok (eq x.data p t.size)

/-- The function `efacevaleq`: `x` against the unboxed pair of the non-nil descriptor `t` and
the data word `p`. -/
def efacevaleq (x : eface) (t : _type) (p : Nat) : Except String Bool :=
  match x._type with
  | none => .ok false
  | some xt =>
    if !eqtype (some xt) (some t) then
      .ok false
    else
      let eq := t.equalfn
      match eq with
      | none => .error ("comparing uncomparable type " ++ t.string)
      | some eq =>
        if isDirectIface t then
          .ok (x.data == p)
        else
          .ok (eq x.data p t.size)

/-- The normalisation of the method-table representation to the valueless one, in the words
of the specification: the type is nil when `x.tab` is nil and otherwise the descriptor stored
first in `x.tab`; the data word is the same. -/
def norm (x : iface) : eface :=
  match x.tab with
  | none => { _type := none, data := x.data }
  | some tab => { _type := some tab.typ, data := x.data }

/-! ## Strings -/

/-- The first pair of bytes at which the first `n` bytes of two byte sequences differ, if any. -/
def firstDiff : List Nat → List Nat → Nat → Option (Nat × Nat)
  | a :: x, b :: y, n + 1 => if a = b then firstDiff x y n else some (a, b)
  | _, _, _ => none

/-- The contract of the C library function `memcmp`, which `alg.go` calls and which is not part
of the runtime: on the first `n` bytes of two objects that both hold at least `n` bytes it
returns zero when they agree, and otherwise a value whose sign is that of the difference of
the first pair of differing bytes, read as unsigned; the magnitude is left open. -/
def MemcmpContract (memcmp : List Nat → List Nat → Nat → Int) : Prop :=
  ∀ x y n, n ≤ x.length → n ≤ y.length →
    match firstDiff x y n with
    | none => memcmp x y n = 0
    | some (a, b) => if a < b then memcmp x y n < 0 else 0 < memcmp x y n

/-- A `memcmp` that returns the difference of the first pair of differing bytes, as the generic
C implementation does. -/
def memcmpDiff : List Nat → List Nat → Nat → Int
  | a :: x, b :: y, n + 1 => if a = b then memcmpDiff x y n else (a : Int) - (b : Int)
  | _, _, _ => 0

/-- A `memcmp` that returns only the sign of the first byte difference. -/
def memcmpSign : List Nat → List Nat → Nat → Int
  | a :: x, b :: y, n + 1 => if a = b then memcmpSign x y n else if a < b then -1 else 1
  | _, _, _ => 0

/-- The function `eqstring`; a string is the sequence of its bytes, `memcmp` is the C library
function the runtime is linked with. -/
def eqstring (memcmp : List Nat → List Nat → Nat → Int) (x y : List Nat) : Bool :=
  let a := x
  let b := y
  if a.length != b.length then
    false
  else
    memcmp a b a.length == 0

/-- The function `cmpstring`; the `int32` result of `memcmp` is converted to `int` unchanged. -/
def cmpstring (memcmp : List Nat → List Nat → Nat → Int) (x y : List Nat) : Int :=
  let a := x
  let b := y
  let l := if a.length > b.length then b.length else a.length
  let i := memcmp a b l
  if i != 0 then
    i
  else if a.length < b.length then
    -1
  else if a.length > b.length then
    1
  else
    0

/-- The reference comparison of two byte sequences in lexicographic order: `-1`, `0` or `1`. -/
def lexSign : List Nat → List Nat → Int
  | [], [] => 0
  | [], _ :: _ => -1
  | _ :: _, [] => 1
  | a :: x, b :: y => if a < b then -1 else if b < a then 1 else lexSign x y

/-- The byte sequence `x` precedes `y`, in the words of the specification: at the first
differing position within the first `min (len x) (len y)` bytes (a position `i` before which
the two sequences agree) `x` has the smaller byte, or there is no such position (the two
sequences agree on those bytes) and `x` is shorter. -/
def precedes (x y : List Nat) : Prop :=
  (∃ i, i < min x.length y.length ∧ x.take i = y.take i ∧ x.getD i 0 < y.getD i 0)
    ∨ (x.take (min x.length y.length) = y.take (min x.length y.length) ∧ x.length < y.length)

/-- The sign the first differing pair of bytes, or else the two lengths, stand for. -/
def signOf (d : Option (Nat × Nat)) (lx ly : Nat) : Int :=
  match d with
  | some (a, b) => if a < b then -1 else 1
  | none => if lx < ly then -1 else if ly < lx then 1 else 0

/-! ## Seeding the hash functions -/

/-- The exact integer value of the constant expression of `c0`, before conversion to
`uintptr`. -/
def c0Expr (PtrSize : Int) : Int :=
  Int.tdiv (8 - PtrSize) 4 * 2860486313 + Int.tdiv (PtrSize - 4) 4 * 33054211828000289

/-- The exact integer value of the constant expression of `c1`, before conversion to
`uintptr`. -/
def c1Expr (PtrSize : Int) : Int :=
  Int.tdiv (8 - PtrSize) 4 * 3267000013 + Int.tdiv (PtrSize - 4) 4 * 23344194077549503

/-- The constant `hashRandomBytes`. -/
def hashRandomBytes (PtrSize : Nat) : Nat :=
  PtrSize / 4 * 64

/-- The package variables `useAeshash`, `aeskeysched` (bytes) and `hashkey` (words). -/
structure AlgState where
  useAeshash : Bool
  aeskeysched : List Nat
  hashkey : List Nat

/-- The zero-valued variables a process starts with. -/
def zeroAlgState (PtrSize : Nat) : AlgState :=
  { useAeshash := false, aeskeysched := List.replicate (hashRandomBytes PtrSize) 0,
    hashkey := List.replicate 4 0 }

/-- Modelled from the spec: `getRandomData` is defined outside `alg.go`; it fills the whole
buffer it is given, of `n` bytes, with bytes from the external random source `rand`. -/
def getRandomData (rand : Nat → Nat) (n : Nat) : List Nat :=
  (List.range n).map (fun i => rand i % 256)

/-- The word the machine reads from a sequence of bytes, in its byte order. -/
def wordOfBytes (bigEndian : Bool) (bs : List Nat) : Nat :=
  if bigEndian then bs.foldl (fun acc b => acc * 256 + b) 0
  else bs.foldr (fun b acc => b + 256 * acc) 0

/-- The word `hashkey[i]` right after `getRandomData` has filled the `4 * PtrSize` bytes of
`hashkey`: the word supplied by the random source. -/
def randomWord (PtrSize : Nat) (bigEndian : Bool) (rand : Nat → Nat) (i : Nat) : Nat :=
  wordOfBytes bigEndian (((getRandomData rand (4 * PtrSize)).drop (i * PtrSize)).take PtrSize)

/-- The word supplied by the random source for `hashkey[i]`, in the words of the
specification: the `PtrSize` random bytes numbered `i * PtrSize` to `i * PtrSize + PtrSize - 1`,
the first of them the least significant on a little-endian machine and the most significant
on a big-endian one. -/
def suppliedWord (PtrSize : Nat) (bigEndian : Bool) (rand : Nat → Nat) (i : Nat) : Nat :=
  ∑ j in Finset.range PtrSize,
    (rand (i * PtrSize + j) % 256) * 256 ^ (if bigEndian then PtrSize - 1 - j else j)

/-- The function `alginit`, on the variables `s`; `GOARCH`, `GOOS`, `cpuid_ecx`, the byte
order and the random source are those of the host. -/
def alginit (GOARCH GOOS : String) (cpuid_ecx PtrSize : Nat) (bigEndian : Bool)
    (rand : Nat → Nat) (s : AlgState) : AlgState :=
  if (GOARCH == "386" || GOARCH == "amd64") &&
      GOOS != "nacl" &&
      (cpuid_ecx &&& (1 <<< 25)) != 0 &&
      (cpuid_ecx &&& (1 <<< 9)) != 0 &&
      (cpuid_ecx &&& (1 <<< 19)) != 0 then
    { s with useAeshash := true, aeskeysched := getRandomData rand (hashRandomBytes PtrSize) }
  else
    let hashkey := randomWord PtrSize bigEndian rand
    { s with hashkey := [hashkey 0 ||| 1, hashkey 1 ||| 1, hashkey 2 ||| 1, hashkey 3 ||| 1] }

/-- The variables when `alginit` is entered on a host: the zero-valued variables, or what
earlier calls of `alginit` on the same host left, each call with its own random bytes (the
most recent call first). -/
def alginitCalls (GOARCH GOOS : String) (cpuid_ecx PtrSize : Nat) (bigEndian : Bool) :
    List (Nat → Nat) → AlgState
  | [] => zeroAlgState PtrSize
  | rand :: earlier =>
    alginit GOARCH GOOS cpuid_ecx PtrSize bigEndian rand
      (alginitCalls GOARCH GOOS cpuid_ecx PtrSize bigEndian earlier)

/-! ## Sample descriptors and values -/

/-- A hash function in the style of `memhash`, on a memory that holds at every address the
address itself. -/
def sampleHash (p h s : Nat) : Nat :=
  (p + 1) * 1000003 + h + s

/-- An equality function in the style of `memequal`, on a memory that holds at every address
the address itself: two payloads are equal iff they are the same payload. -/
def sampleEqual (p q _s : Nat) : Bool :=
  p == q

/-- The equality function of a floating-point type on a memory in which every payload is a
NaN: no payload is equal to any payload, itself included. -/
def nanEqual (_p _q _s : Nat) : Bool :=
  false

/-- A pointer type: stored directly, hashable and comparable. -/
def ptrType : _type :=
  { size := 8, hashfn := some sampleHash, equalfn := some sampleEqual, string := "*int",
    isDirect := true, identity := 1 }

/-- A string type: stored indirectly, hashable and comparable. -/
def stringType : _type :=
  { size := 16, hashfn := some sampleHash, equalfn := some sampleEqual, string := "string",
    isDirect := false, identity := 2 }

/-- A function type: stored directly, neither hashable nor comparable. -/
def funcType : _type :=
  { size := 8, hashfn := none, equalfn := none, string := "func()",
    isDirect := true, identity := 3 }

/-- A slice type: stored indirectly, neither hashable nor comparable. -/
def sliceType : _type :=
  { size := 24, hashfn := none, equalfn := none, string := "[]int",
    isDirect := false, identity := 4 }

/-- A floating-point type whose payloads are all NaN: stored indirectly, comparable. -/
def float64Type : _type :=
  { size := 8, hashfn := some sampleHash, equalfn := some nanEqual, string := "float64",
    isDirect := false, identity := 5 }

/-- A sample random source. -/
def sampleRand (i : Nat) : Nat :=
  i * 7 + 2

/-- A hash function that returns zero on every payload and seed. -/
def zeroHash (_p _h _s : Nat) : Nat :=
  0

/-- A type whose hash function is `zeroHash`: stored indirectly, hashable and comparable. -/
def zeroHashType : _type :=
  { size := 8, hashfn := some zeroHash, equalfn := some sampleEqual, string := "main.K",
    isDirect := false, identity := 7 }

/-- A memory that holds the same interface value at every address. -/
def constHeap (t : Option _type) (d : Nat) : Heap :=
  { loadIface := fun _ => { tab := t.map itab.mk, data := d },
    loadEface := fun _ => { _type := t, data := d } }

/-! ## The hash dispatchers -/

/-- C1: for a non-nil value whose descriptor `t` has the hash function `fn`, `interhash` and
`nilinterhash` return `c1 * fn(dataPointer, h XOR c0, t.size)` modulo `2 ^ w`, where
`dataPointer` is the address of the data slot when `t` is direct and the content of the data
slot when `t` is indirect. -/
theorem interhash_nilinterhash_eq (PtrSize : Nat) (mem : Heap) (p q h size d e : Nat)
    (t : _type) (fn : Nat → Nat → Nat → Nat) (hfn : t.hashfn = some fn)
    (hp : mem.loadIface p = { tab := some { typ := t }, data := d })
    (hq : mem.loadEface q = { _type := some t, data := e }) :
    interhash PtrSize mem p h size
        = .ok ((c1 PtrSize * fn (if isDirectIface t then dataAddr PtrSize p else d)
            (h ^^^ c0 PtrSize) t.size) % wordMod PtrSize)
      ∧ nilinterhash PtrSize mem q h size
        = .ok ((c1 PtrSize * fn (if isDirectIface t then dataAddr PtrSize q else e)
            (h ^^^ c0 PtrSize) t.size) % wordMod PtrSize) := by
  constructor
  · simp only [interhash, hp, hfn]
    by_cases hd : isDirectIface t = true <;> simp [hd]
  · simp only [nilinterhash, hq, hfn]
    by_cases hd : isDirectIface t = true <;> simp [hd]

/-- Witness of C1 on a 64-bit machine: a pointer value (direct, slot at address 24) and the
seed 5. -/
theorem interhash_nilinterhash_eq_witness :
    interhash 8 (constHeap (some ptrType) 77) 16 5 16
        = .ok ((c1 8 * sampleHash 24 (5 ^^^ c0 8) 8) % wordMod 8)
      ∧ nilinterhash 8 (constHeap (some ptrType) 77) 16 5 16
        = .ok ((c1 8 * sampleHash 24 (5 ^^^ c0 8) 8) % wordMod 8) :=
  interhash_nilinterhash_eq 8 (constHeap (some ptrType) 77) 16 16 5 16 77 77 ptrType sampleHash
    rfl rfl rfl

/-- C2: hashing a nil value returns the seed unchanged, whatever the data slot holds. -/
theorem interhash_nilinterhash_nil (PtrSize : Nat) (mem : Heap) (p q h size : Nat)
    (hp : (mem.loadIface p).tab = none) (hq : (mem.loadEface q)._type = none) :
    interhash PtrSize mem p h size = .ok h ∧ nilinterhash PtrSize mem q h size = .ok h := by
  constructor
  · simp only [interhash, hp]
  · simp only [nilinterhash, hq]

/-- Witness of C2: a nil value with a non-zero data slot. -/
theorem interhash_nilinterhash_nil_witness :
    interhash 8 (constHeap none 77) 16 5 16 = .ok 5
      ∧ nilinterhash 8 (constHeap none 77) 16 5 16 = .ok 5 :=
  interhash_nilinterhash_nil 8 (constHeap none 77) 16 16 5 16 rfl rfl

/-- C3: `interhash` and `nilinterhash` fail iff the value is non-nil and its descriptor has no
hash function, and the failure then is the message "hash of unhashable type " followed by
the type's name, whether the type is direct or not. -/
theorem interhash_nilinterhash_error_iff (PtrSize : Nat) (mem : Heap) (p h size : Nat) :
    ((∃ msg, interhash PtrSize mem p h size = .error msg)
        ↔ ∃ tab, (mem.loadIface p).tab = some tab ∧ tab.typ.hashfn = none)
      ∧ (∀ tab, (mem.loadIface p).tab = some tab → tab.typ.hashfn = none →
          interhash PtrSize mem p h size
            = .error ("hash of unhashable type " ++ tab.typ.string))
      ∧ ((∃ msg, nilinterhash PtrSize mem p h size = .error msg)
        ↔ ∃ t, (mem.loadEface p)._type = some t ∧ t.hashfn = none)
      ∧ (∀ t, (mem.loadEface p)._type = some t → t.hashfn = none →
          nilinterhash PtrSize mem p h size
            = .error ("hash of unhashable type " ++ t.string)) := by
  refine ⟨?_, ?_, ?_, ?_⟩
  · simp only [interhash]
    cases htab : (mem.loadIface p).tab with
    | none => simp
    | some tab =>
      cases hfn : tab.typ.hashfn with
      | none => simp [hfn]
      | some fn => by_cases hd : isDirectIface tab.typ = true <;> simp [hfn, hd]
  · intro tab htab hfn
    simp only [interhash, htab, hfn]
  · simp only [nilinterhash]
    cases ht : (mem.loadEface p)._type with
    | none => simp
    | some t =>
      cases hfn : t.hashfn with
      | none => simp [hfn]
      | some fn => by_cases hd : isDirectIface t = true <;> simp [hfn, hd]
  · intro t ht hfn
    simp only [nilinterhash, ht, hfn]

/-- Witness of C3: a function value (direct) and a slice value (indirect) both fail, each with
the name of its type. -/
theorem interhash_nilinterhash_error_iff_witness :
    interhash 8 (constHeap (some funcType) 77) 16 5 16
        = .error "hash of unhashable type func()"
      ∧ nilinterhash 8 (constHeap (some sliceType) 77) 16 5 16
        = .error "hash of unhashable type []int" :=
  ⟨(interhash_nilinterhash_error_iff 8 (constHeap (some funcType) 77) 16 5 16).2.1
      { typ := funcType } rfl rfl,
    (interhash_nilinterhash_error_iff 8 (constHeap (some sliceType) 77) 16 5 16).2.2.2
      sliceType rfl rfl⟩

/-! ## The equality dispatchers -/

/-- C4: for `efaceeq`, `ifaceeq` and `ifaceefaceeq`, two nil operands are equal and a nil
operand is different from a non-nil one; neither case fails, whatever the descriptor of the
non-nil operand (its equality function may be absent). -/
theorem eq_nil_operands (t : _type) (d e : Nat) :
    efaceeq ⟨none, d⟩ ⟨none, e⟩ = .ok true
      ∧ efaceeq ⟨none, d⟩ ⟨some t, e⟩ = .ok false
      ∧ efaceeq ⟨some t, d⟩ ⟨none, e⟩ = .ok false
      ∧ ifaceeq ⟨none, d⟩ ⟨none, e⟩ = .ok true
      ∧ ifaceeq ⟨none, d⟩ ⟨some ⟨t⟩, e⟩ = .ok false
      ∧ ifaceeq ⟨some ⟨t⟩, d⟩ ⟨none, e⟩ = .ok false
      ∧ ifaceefaceeq ⟨none, d⟩ ⟨none, e⟩ = .ok true
      ∧ ifaceefaceeq ⟨none, d⟩ ⟨some t, e⟩ = .ok false
      ∧ ifaceefaceeq ⟨some ⟨t⟩, d⟩ ⟨none, e⟩ = .ok false := by
  refine ⟨?_, ?_, ?_, ?_, ?_, ?_, ?_, ?_, ?_⟩ <;> simp [efaceeq, ifaceeq, ifaceefaceeq, eqtype]

/-- C5: two non-nil operands whose descriptors are not the same type according to `eqtype`
are different, without failure, whatever the data slots, equality functions and direct
flags. -/
theorem eq_type_mismatch (t u : _type) (d e : Nat)
    (hne : eqtype (some t) (some u) = false) :
    efaceeq ⟨some t, d⟩ ⟨some u, e⟩ = .ok false
      ∧ ifaceeq ⟨some ⟨t⟩, d⟩ ⟨some ⟨u⟩, e⟩ = .ok false
      ∧ ifaceefaceeq ⟨some ⟨t⟩, d⟩ ⟨some u, e⟩ = .ok false := by
  refine ⟨?_, ?_, ?_⟩ <;> simp [efaceeq, ifaceeq, ifaceefaceeq, hne]

/-- Witness of C5: a function value against a pointer value with the identical data slot. -/
theorem eq_type_mismatch_witness :
    efaceeq ⟨some funcType, 7⟩ ⟨some ptrType, 7⟩ = .ok false
      ∧ ifaceeq ⟨some ⟨funcType⟩, 7⟩ ⟨some ⟨ptrType⟩, 7⟩ = .ok false
      ∧ ifaceefaceeq ⟨some ⟨funcType⟩, 7⟩ ⟨some ptrType, 7⟩ = .ok false :=
  eq_type_mismatch funcType ptrType 7 7 rfl

/-- C6, as stated, fails: a function type is direct and has no equality function, and
comparing a function value with itself fails although the two data words are equal; the
same words under a direct descriptor that has an equality function compare equal. -/
theorem eq_direct_counterexample :
    efaceeq ⟨some funcType, 7⟩ ⟨some funcType, 7⟩
        = .error "comparing uncomparable type func()"
      ∧ ifaceeq ⟨some ⟨funcType⟩, 7⟩ ⟨some ⟨funcType⟩, 7⟩
        = .error "comparing uncomparable type func()"
      ∧ ifaceefaceeq ⟨some ⟨funcType⟩, 7⟩ ⟨some funcType, 7⟩
        = .error "comparing uncomparable type func()"
      ∧ isDirectIface funcType = true
      ∧ efaceeq ⟨some funcType, 7⟩ ⟨some funcType, 7⟩ ≠ .ok true
      ∧ efaceeq ⟨some ptrType, 7⟩ ⟨some ptrType, 7⟩ = .ok true := by
  refine ⟨rfl, rfl, rfl, rfl, ?_, rfl⟩
  intro h
  cases h

/-- C6, amended: for two non-nil operands sharing a direct descriptor `t`, the three
dispatchers return whether the two data words are equal, whichever equality function `t`
carries, provided it carries one; when it carries none they fail with "comparing
uncomparable type " followed by the name of `t`. -/
theorem eq_direct (t : _type) (d e : Nat) (hd : isDirectIface t = true) :
    (∀ eq, t.equalfn = some eq →
        efaceeq ⟨some t, d⟩ ⟨some t, e⟩ = .ok ((d == e))
          ∧ ifaceeq ⟨some ⟨t⟩, d⟩ ⟨some ⟨t⟩, e⟩ = .ok ((d == e))
          ∧ ifaceefaceeq ⟨some ⟨t⟩, d⟩ ⟨some t, e⟩ = .ok ((d == e)))
      ∧ (t.equalfn = none →
        efaceeq ⟨some t, d⟩ ⟨some t, e⟩ = .error ("comparing uncomparable type " ++ t.string)
          ∧ ifaceeq ⟨some ⟨t⟩, d⟩ ⟨some ⟨t⟩, e⟩
            = .error ("comparing uncomparable type " ++ t.string)
          ∧ ifaceefaceeq ⟨some ⟨t⟩, d⟩ ⟨some t, e⟩
            = .error ("comparing uncomparable type " ++ t.string)) := by
  constructor
  · intro eq heq
    refine ⟨?_, ?_, ?_⟩ <;> simp [efaceeq, ifaceeq, ifaceefaceeq, eqtype, heq, hd]
  · intro heq
    refine ⟨?_, ?_, ?_⟩ <;> simp [efaceeq, ifaceeq, ifaceefaceeq, eqtype, heq]

/-- Witness of C6, amended: two pointer values with different data words. -/
theorem eq_direct_witness :
    efaceeq ⟨some ptrType, 7⟩ ⟨some ptrType, 8⟩ = .ok false
      ∧ ifaceeq ⟨some ⟨ptrType⟩, 7⟩ ⟨some ⟨ptrType⟩, 8⟩ = .ok false
      ∧ ifaceefaceeq ⟨some ⟨ptrType⟩, 7⟩ ⟨some ptrType, 8⟩ = .ok false :=
  (eq_direct ptrType 7 8 rfl).1 sampleEqual rfl

/-- C7: for two non-nil operands sharing an indirect descriptor `t`, the three dispatchers
return `eq(x.data, y.data, t.size)` when `t` has the equality function `eq`, and fail with
"comparing uncomparable type " followed by the name of `t` when it has none. -/
theorem eq_indirect (t : _type) (d e : Nat) (hd : isDirectIface t = false) :
    (∀ eq, t.equalfn = some eq →
        efaceeq ⟨some t, d⟩ ⟨some t, e⟩ = .ok (eq d e t.size)
          ∧ ifaceeq ⟨some ⟨t⟩, d⟩ ⟨some ⟨t⟩, e⟩ = .ok (eq d e t.size)
          ∧ ifaceefaceeq ⟨some ⟨t⟩, d⟩ ⟨some t, e⟩ = .ok (eq d e t.size))
      ∧ (t.equalfn = none →
        efaceeq ⟨some t, d⟩ ⟨some t, e⟩ = .error ("comparing uncomparable type " ++ t.string)
          ∧ ifaceeq ⟨some ⟨t⟩, d⟩ ⟨some ⟨t⟩, e⟩
            = .error ("comparing uncomparable type " ++ t.string)
          ∧ ifaceefaceeq ⟨some ⟨t⟩, d⟩ ⟨some t, e⟩
            = .error ("comparing uncomparable type " ++ t.string)) := by
  constructor
  · intro eq heq
    refine ⟨?_, ?_, ?_⟩ <;> simp [efaceeq, ifaceeq, ifaceefaceeq, eqtype, heq, hd]
  · intro heq
    refine ⟨?_, ?_, ?_⟩ <;> simp [efaceeq, ifaceeq, ifaceefaceeq, eqtype, heq]

/-- Witness of C7: two string values, and two slice values. -/
theorem eq_indirect_witness :
    (efaceeq ⟨some stringType, 7⟩ ⟨some stringType, 8⟩ = .ok (sampleEqual 7 8 16)
        ∧ ifaceeq ⟨some ⟨stringType⟩, 7⟩ ⟨some ⟨stringType⟩, 8⟩ = .ok (sampleEqual 7 8 16)
        ∧ ifaceefaceeq ⟨some ⟨stringType⟩, 7⟩ ⟨some stringType, 8⟩ = .ok (sampleEqual 7 8 16))
      ∧ (efaceeq ⟨some sliceType, 7⟩ ⟨some sliceType, 8⟩
          = .error "comparing uncomparable type []int"
        ∧ ifaceeq ⟨some ⟨sliceType⟩, 7⟩ ⟨some ⟨sliceType⟩, 8⟩
          = .error "comparing uncomparable type []int"
        ∧ ifaceefaceeq ⟨some ⟨sliceType⟩, 7⟩ ⟨some sliceType, 8⟩
          = .error "comparing uncomparable type []int") :=
  ⟨(eq_indirect stringType 7 8 rfl).1 sampleEqual rfl, (eq_indirect sliceType 7 8 rfl).2 rfl⟩

/-- C8, as stated, fails: a function value (no equality function) compared with a nil value,
or with a value of another type, is different from it and no error is raised. -/
theorem eq_uncomparable_counterexample :
    funcType.equalfn = none
      ∧ efaceeq ⟨some funcType, 7⟩ ⟨none, 0⟩ = .ok false
      ∧ ifaceeq ⟨some ⟨funcType⟩, 7⟩ ⟨none, 0⟩ = .ok false
      ∧ ifaceefaceeq ⟨some ⟨funcType⟩, 7⟩ ⟨none, 0⟩ = .ok false
      ∧ efaceeq ⟨some funcType, 7⟩ ⟨some ptrType, 7⟩ = .ok false
      ∧ ifaceeq ⟨some ⟨funcType⟩, 7⟩ ⟨some ⟨ptrType⟩, 7⟩ = .ok false
      ∧ ifaceefaceeq ⟨some ⟨funcType⟩, 7⟩ ⟨some ptrType, 7⟩ = .ok false
      ∧ ¬ ∃ msg, efaceeq ⟨some funcType, 7⟩ ⟨none, 0⟩ = .error msg := by
  refine ⟨rfl, rfl, rfl, rfl, rfl, rfl, rfl, ?_⟩
  rintro ⟨msg, h⟩
  cases h

/-- C8, amended: a value `v` whose descriptor `t` has no equality function, compared as the
left operand with `w`, raises "comparing uncomparable type " followed by the name of `t`
when `w` is non-nil and `eqtype` holds of the two descriptors; when `w` is nil or of a type
that `eqtype` rejects, the result is false and nothing is raised. -/
theorem eq_uncomparable (t u : _type) (d e : Nat) (hnone : t.equalfn = none) :
    (eqtype (some t) (some u) = true →
        efaceeq ⟨some t, d⟩ ⟨some u, e⟩ = .error ("comparing uncomparable type " ++ t.string)
          ∧ ifaceeq ⟨some ⟨t⟩, d⟩ ⟨some ⟨u⟩, e⟩
            = .error ("comparing uncomparable type " ++ t.string)
          ∧ ifaceefaceeq ⟨some ⟨t⟩, d⟩ ⟨some u, e⟩
            = .error ("comparing uncomparable type " ++ t.string))
      ∧ (eqtype (some t) (some u) = false →
        efaceeq ⟨some t, d⟩ ⟨some u, e⟩ = .ok false
          ∧ ifaceeq ⟨some ⟨t⟩, d⟩ ⟨some ⟨u⟩, e⟩ = .ok false
          ∧ ifaceefaceeq ⟨some ⟨t⟩, d⟩ ⟨some u, e⟩ = .ok false)
      ∧ efaceeq ⟨some t, d⟩ ⟨none, e⟩ = .ok false
      ∧ ifaceeq ⟨some ⟨t⟩, d⟩ ⟨none, e⟩ = .ok false
      ∧ ifaceefaceeq ⟨some ⟨t⟩, d⟩ ⟨none, e⟩ = .ok false := by
  refine ⟨?_, ?_, ?_, ?_, ?_⟩
  · intro hty
    refine ⟨?_, ?_, ?_⟩ <;> simp [efaceeq, ifaceeq, ifaceefaceeq, hty, hnone]
  · intro hty
    refine ⟨?_, ?_, ?_⟩ <;> simp [efaceeq, ifaceeq, ifaceefaceeq, hty]
  · simp [efaceeq, eqtype]
  · simp [ifaceeq]
  · simp [ifaceefaceeq]

/-- Witness of C8, amended: a slice value against a slice value, and against a pointer
value. -/
theorem eq_uncomparable_witness :
    (efaceeq ⟨some sliceType, 7⟩ ⟨some sliceType, 9⟩
          = .error "comparing uncomparable type []int"
        ∧ ifaceeq ⟨some ⟨sliceType⟩, 7⟩ ⟨some ⟨sliceType⟩, 9⟩
          = .error "comparing uncomparable type []int"
        ∧ ifaceefaceeq ⟨some ⟨sliceType⟩, 7⟩ ⟨some sliceType, 9⟩
          = .error "comparing uncomparable type []int")
      ∧ (efaceeq ⟨some sliceType, 7⟩ ⟨some ptrType, 9⟩ = .ok false
        ∧ ifaceeq ⟨some ⟨sliceType⟩, 7⟩ ⟨some ⟨ptrType⟩, 9⟩ = .ok false
        ∧ ifaceefaceeq ⟨some ⟨sliceType⟩, 7⟩ ⟨some ptrType, 9⟩ = .ok false) :=
  ⟨(eq_uncomparable sliceType sliceType 7 9 rfl).1 rfl,
    (eq_uncomparable sliceType ptrType 7 9 rfl).2.1 rfl⟩

/-- C9, as stated, fails: a floating-point type is comparable, yet a value holding a NaN is
different from itself. -/
theorem eq_refl_counterexample :
    float64Type.equalfn = some nanEqual
      ∧ efaceeq ⟨some float64Type, 7⟩ ⟨some float64Type, 7⟩ = .ok false
      ∧ ifaceeq ⟨some ⟨float64Type⟩, 7⟩ ⟨some ⟨float64Type⟩, 7⟩ = .ok false :=
  ⟨rfl, rfl, rfl⟩

/-- C9, amended: `efaceeq(v, v)` and `ifaceeq(x, x)` return true for a nil value, for a value
of a direct type that has an equality function, and for a value of an indirect type whose
equality function returns true on the value's payload compared with itself. -/
theorem eq_refl (v : eface) (x : iface)
    (hv : v._type = none ∨ ∃ t eq, v._type = some t ∧ t.equalfn = some eq
      ∧ (isDirectIface t = true ∨ eq v.data v.data t.size = true))
    (hx : x.tab = none ∨ ∃ tab eq, x.tab = some tab ∧ tab.typ.equalfn = some eq
      ∧ (isDirectIface tab.typ = true ∨ eq x.data x.data tab.typ.size = true)) :
    efaceeq v v = .ok true ∧ ifaceeq x x = .ok true := by
  constructor
  · rcases hv with hnil | ⟨t, eq, ht, heq, hdir | hself⟩
    · simp [efaceeq, hnil, eqtype]
    · simp [efaceeq, ht, eqtype, heq, hdir]
    · by_cases hdir : isDirectIface t = true <;> simp [efaceeq, ht, eqtype, heq, hdir, hself]
  · rcases hx with hnil | ⟨tab, eq, ht, heq, hdir | hself⟩
    · simp [ifaceeq, hnil]
    · simp [ifaceeq, ht, eqtype, heq, hdir]
    · by_cases hdir : isDirectIface tab.typ = true <;>
        simp [ifaceeq, ht, eqtype, heq, hdir, hself]

/-- Witness of C9, amended: a string value and a pointer value. -/
theorem eq_refl_witness :
    efaceeq ⟨some stringType, 7⟩ ⟨some stringType, 7⟩ = .ok true
      ∧ ifaceeq ⟨some ⟨ptrType⟩, 7⟩ ⟨some ⟨ptrType⟩, 7⟩ = .ok true :=
  eq_refl ⟨some stringType, 7⟩ ⟨some ⟨ptrType⟩, 7⟩
    (Or.inr ⟨stringType, sampleEqual, rfl, rfl, Or.inr rfl⟩)
    (Or.inr ⟨⟨ptrType⟩, sampleEqual, rfl, rfl, Or.inl rfl⟩)

/-- Comparing two words does not depend on their order. -/
theorem beq_word_comm (a b : Nat) : (a == b) = (b == a) := by
  rw [Bool.eq_iff_iff]
  simp only [beq_iff_eq]
  exact eq_comm

/-- The predicate `eqtype` does not depend on the order of its arguments. -/
theorem eqtype_comm (a b : Option _type) : eqtype a b = eqtype b a := by
  cases a with
  | none => cases b <;> rfl
  | some t =>
    cases b with
    | none => rfl
    | some u => exact beq_word_comm t.identity u.identity

/-- The dispatcher `ifaceeq` is `efaceeq` on the descriptors stored first in the two method
tables. -/
theorem ifaceeq_eq_efaceeq (x y : iface) :
    ifaceeq x y = efaceeq ⟨x.tab.map itab.typ, x.data⟩ ⟨y.tab.map itab.typ, y.data⟩ := by
  cases hx : x.tab <;> cases hy : y.tab <;> simp [ifaceeq, efaceeq, hx, hy, eqtype]

/-- Exchanging the operands of `efaceeq` keeps the outcome when the two descriptors, if
`eqtype` identifies them, agree in equality function, direct flag, size and name, and the
equality function of an indirect type answers alike on the two data words in either order. -/
theorem efaceeq_comm_of (v w : eface)
    (hvw : ∀ t u, v._type = some t → w._type = some u → eqtype (some t) (some u) = true →
      t.equalfn = u.equalfn ∧ isDirectIface t = isDirectIface u ∧ t.size = u.size
        ∧ t.string = u.string
        ∧ (isDirectIface t = false → ∀ eq, t.equalfn = some eq →
            eq v.data w.data t.size = eq w.data v.data t.size)) :
    efaceeq v w = efaceeq w v := by
  cases hv : v._type with
  | none => cases hw : w._type <;> simp [efaceeq, hv, hw, eqtype]
  | some t =>
    cases hw : w._type with
    | none => simp [efaceeq, hv, hw, eqtype]
    | some u =>
      by_cases hty : eqtype (some t) (some u) = true
      · have hty2 : eqtype (some u) (some t) = true := by rw [eqtype_comm]; exact hty
        obtain ⟨hfn, hdir, hsize, hname, hsym⟩ := hvw t u hv hw hty
        cases heq : t.equalfn with
        | none =>
          have heq2 : u.equalfn = none := by rw [← hfn]; exact heq
          simp [efaceeq, hv, hw, hty, hty2, heq, heq2, hname]
        | some eq =>
          have heq2 : u.equalfn = some eq := by rw [← hfn]; exact heq
          by_cases hd : isDirectIface t = true
          · have hd2 : isDirectIface u = true := by rw [← hdir]; exact hd
            simp [efaceeq, hv, hw, hty, hty2, heq, heq2, hd, hd2, beq_word_comm v.data w.data]
          · have hd1 : isDirectIface t = false := by simpa using hd
            have hd2 : isDirectIface u = false := by rw [← hdir]; exact hd1
            have h := hsym hd1 eq heq
            simp [efaceeq, hv, hw, hty, hty2, heq, heq2, hd1, hd2, h, ← hsize]
      · have hty1 : eqtype (some t) (some u) = false := by simpa using hty
        have hty2 : eqtype (some u) (some t) = false := by rw [eqtype_comm]; exact hty1
        simp [efaceeq, hv, hw, hty1, hty2]

/-- C10: `efaceeq(v, w)` and `efaceeq(w, v)` have the same outcome (the same boolean or the same
failure), and so have `ifaceeq(x, y)` and `ifaceeq(y, x)`, for all operands built on
well-formed descriptors.  The dispatchers read the equality function, the direct flag, the
size and the name from the left operand's descriptor; descriptors are supplied by the
compiler, and two of them that `eqtype` identifies are descriptors of one type, so they carry
the same equality function, direct flag, size and name (hypotheses `hvw`, `hxy`, first four
parts), which covers the case of two distinct descriptors of one type.  The equality
function of a type is itself symmetric; the theorem needs it only for an indirect type and
only on the two payloads compared (last part of `hvw`, `hxy`). -/
theorem eq_symm (v w : eface) (x y : iface)
    (hvw : ∀ t u, v._type = some t → w._type = some u → eqtype (some t) (some u) = true →
      t.equalfn = u.equalfn ∧ isDirectIface t = isDirectIface u ∧ t.size = u.size
        ∧ t.string = u.string
        ∧ (isDirectIface t = false → ∀ eq, t.equalfn = some eq →
            eq v.data w.data t.size = eq w.data v.data t.size))
    (hxy : ∀ a b, x.tab = some a → y.tab = some b →
      eqtype (some a.typ) (some b.typ) = true →
      a.typ.equalfn = b.typ.equalfn ∧ isDirectIface a.typ = isDirectIface b.typ
        ∧ a.typ.size = b.typ.size ∧ a.typ.string = b.typ.string
        ∧ (isDirectIface a.typ = false → ∀ eq, a.typ.equalfn = some eq →
            eq x.data y.data a.typ.size = eq y.data x.data a.typ.size)) :
    efaceeq v w = efaceeq w v ∧ ifaceeq x y = ifaceeq y x := by
  refine ⟨efaceeq_comm_of v w hvw, ?_⟩
  rw [ifaceeq_eq_efaceeq x y, ifaceeq_eq_efaceeq y x]
  apply efaceeq_comm_of
  intro t u ht hu hty
  cases hx : x.tab with
  | none => simp [hx] at ht
  | some a =>
    cases hy : y.tab with
    | none => simp [hy] at hu
    | some b =>
      have hta : a.typ = t := by simpa [hx] using ht
      have hub : b.typ = u := by simpa [hy] using hu
      subst hta
      subst hub
      exact hxy a b hx hy hty

/-- Witness of C10: two string values with different payloads, and two pointer
values. -/
theorem eq_symm_witness :
    (efaceeq ⟨some stringType, 7⟩ ⟨some stringType, 8⟩
          = efaceeq ⟨some stringType, 8⟩ ⟨some stringType, 7⟩
        ∧ ifaceeq ⟨some ⟨ptrType⟩, 7⟩ ⟨some ⟨ptrType⟩, 8⟩
          = ifaceeq ⟨some ⟨ptrType⟩, 8⟩ ⟨some ⟨ptrType⟩, 7⟩)
      ∧ efaceeq ⟨some stringType, 8⟩ ⟨some stringType, 7⟩ = .ok false
      ∧ ifaceeq ⟨some ⟨ptrType⟩, 8⟩ ⟨some ⟨ptrType⟩, 7⟩ = .ok false
      ∧ efaceeq ⟨some stringType, 7⟩ ⟨some stringType, 7⟩ = .ok true :=
  ⟨eq_symm ⟨some stringType, 7⟩ ⟨some stringType, 8⟩ ⟨some ⟨ptrType⟩, 7⟩ ⟨some ⟨ptrType⟩, 8⟩
    (by
      intro t u ht hu _
      cases ht
      cases hu
      exact ⟨rfl, rfl, rfl, rfl, fun _ eq heq => by cases heq; rfl⟩)
    (by
      intro a b ha hb _
      cases ha
      cases hb
      exact ⟨rfl, rfl, rfl, rfl, fun hd => by cases hd⟩),
    rfl, rfl, rfl⟩

/-! ## Comparison against an unboxed value, and the three dispatchers compared -/

/-- The function `efacevaleq` agrees with `efaceeq` on the boxed pair when the descriptor of
`x`, if `eqtype` identifies it with `t`, agrees with `t` in equality function, direct flag,
size and name. -/
theorem efacevaleq_eq_efaceeq_of (x : eface) (t : _type) (p : Nat)
    (hxt : ∀ xt, x._type = some xt → eqtype (some xt) (some t) = true →
      xt.equalfn = t.equalfn ∧ isDirectIface xt = isDirectIface t ∧ xt.size = t.size
        ∧ xt.string = t.string) :
    efacevaleq x t p = efaceeq x ⟨some t, p⟩ := by
  cases hx : x._type with
  | none => simp [efacevaleq, efaceeq, hx, eqtype]
  | some xt =>
    by_cases hty : eqtype (some xt) (some t) = true
    · obtain ⟨hfn, hdir, hsize, hname⟩ := hxt xt hx hty
      cases heq : t.equalfn with
      | none =>
        have heq2 : xt.equalfn = none := by rw [hfn]; exact heq
        simp [efacevaleq, efaceeq, hx, hty, heq, heq2, hname]
      | some eq =>
        have heq2 : xt.equalfn = some eq := by rw [hfn]; exact heq
        by_cases hd : isDirectIface t = true
        · have hd2 : isDirectIface xt = true := by rw [hdir]; exact hd
          simp [efacevaleq, efaceeq, hx, hty, heq, heq2, hd, hd2]
        · have hd1 : isDirectIface t = false := by simpa using hd
          have hd2 : isDirectIface xt = false := by rw [hdir]; exact hd1
          simp [efacevaleq, efaceeq, hx, hty, heq, heq2, hd1, hd2, hsize]
    · have hty1 : eqtype (some xt) (some t) = false := by simpa using hty
      simp [efacevaleq, efaceeq, hx, hty1]

/-- The dispatcher `ifaceefaceeq` is `efaceeq` after normalising its left operand. -/
theorem ifaceefaceeq_eq_efaceeq (x : iface) (y : eface) :
    ifaceefaceeq x y = efaceeq (norm x) y := by
  cases hx : x.tab <;> cases hy : y._type <;>
    simp [ifaceefaceeq, efaceeq, norm, hx, hy, eqtype]

/-- The function `ifacevaleq` is `efacevaleq` after normalising its first operand. -/
theorem ifacevaleq_eq_efacevaleq (x : iface) (t : _type) (p : Nat) :
    ifacevaleq x t p = efacevaleq (norm x) t p := by
  cases hx : x.tab <;> simp [ifacevaleq, efacevaleq, norm, hx]

/-- C11: `efacevaleq(x, t, p)` has the outcome of `efaceeq(x, eface{t, p})` and
`ifacevaleq(y, t, p)` the outcome of `ifaceefaceeq(y, eface{t, p})`, as the same boolean or
the same failure, for every first operand built on a well-formed descriptor and every
non-nil `t`.  The unboxed comparisons read the equality function, direct flag, size and name
from `t`, the boxed ones from the first operand's descriptor; descriptors are supplied by the
compiler, and two of them that `eqtype` identifies are descriptors of one type and carry the
same four attributes (hypotheses `hxt`, `hyt`).  When the first operand's descriptor is `t`
itself, when it is nil (the result is false) and when `eqtype` rejects the pair (the result is
false, without failure) nothing is assumed. -/
theorem valeq_eq_boxed (x : eface) (y : iface) (t : _type) (p : Nat)
    (hxt : ∀ xt, x._type = some xt → eqtype (some xt) (some t) = true →
      xt.equalfn = t.equalfn ∧ isDirectIface xt = isDirectIface t ∧ xt.size = t.size
        ∧ xt.string = t.string)
    (hyt : ∀ tab, y.tab = some tab → eqtype (some tab.typ) (some t) = true →
      tab.typ.equalfn = t.equalfn ∧ isDirectIface tab.typ = isDirectIface t
        ∧ tab.typ.size = t.size ∧ tab.typ.string = t.string) :
    efacevaleq x t p = efaceeq x ⟨some t, p⟩
      ∧ ifacevaleq y t p = ifaceefaceeq y ⟨some t, p⟩
      ∧ (∀ d, efacevaleq ⟨none, d⟩ t p = .ok false ∧ ifacevaleq ⟨none, d⟩ t p = .ok false)
      ∧ (∀ u d, eqtype (some u) (some t) = false →
          efacevaleq ⟨some u, d⟩ t p = .ok false ∧ ifacevaleq ⟨some ⟨u⟩, d⟩ t p = .ok false)
      ∧ (∀ d, efacevaleq ⟨some t, d⟩ t p = efaceeq ⟨some t, d⟩ ⟨some t, p⟩
          ∧ ifacevaleq ⟨some ⟨t⟩, d⟩ t p = ifaceefaceeq ⟨some ⟨t⟩, d⟩ ⟨some t, p⟩) := by
  have hsame : ∀ d, efacevaleq ⟨some t, d⟩ t p = efaceeq ⟨some t, d⟩ ⟨some t, p⟩ := by
    intro d
    apply efacevaleq_eq_efaceeq_of
    intro xt hxt2 _
    cases hxt2
    exact ⟨rfl, rfl, rfl, rfl⟩
  refine ⟨efacevaleq_eq_efaceeq_of x t p hxt, ?_, ?_, ?_, ?_⟩
  · rw [ifacevaleq_eq_efacevaleq, ifaceefaceeq_eq_efaceeq]
    apply efacevaleq_eq_efaceeq_of
    intro xt hxt2 hty
    cases hy : y.tab with
    | none => simp [norm, hy] at hxt2
    | some tab =>
      have h : tab.typ = xt := by simpa [norm, hy] using hxt2
      subst h
      exact hyt tab hy hty
  · intro d
    simp [efacevaleq, ifacevaleq]
  · intro u d hty
    simp [efacevaleq, ifacevaleq, hty]
  · intro d
    refine ⟨hsame d, ?_⟩
    rw [ifacevaleq_eq_efacevaleq, ifaceefaceeq_eq_efaceeq]
    exact hsame d

/-- Witness of C11: a string value against the string descriptor, and a function
value against the pointer descriptor. -/
theorem valeq_eq_boxed_witness :
    (efacevaleq ⟨some stringType, 7⟩ stringType 8 = efaceeq ⟨some stringType, 7⟩ ⟨some stringType, 8⟩
      ∧ ifacevaleq ⟨some ⟨stringType⟩, 7⟩ stringType 8
        = ifaceefaceeq ⟨some ⟨stringType⟩, 7⟩ ⟨some stringType, 8⟩)
      ∧ (efacevaleq ⟨some funcType, 7⟩ ptrType 7 = .ok false
        ∧ ifacevaleq ⟨some ⟨funcType⟩, 7⟩ ptrType 7 = .ok false)
      ∧ efaceeq ⟨some stringType, 7⟩ ⟨some stringType, 8⟩ = .ok false
      ∧ efacevaleq ⟨some stringType, 7⟩ stringType 7 = .ok true
      ∧ ifacevaleq ⟨some ⟨sliceType⟩, 7⟩ sliceType 7
        = .error "comparing uncomparable type []int" :=
  ⟨⟨(valeq_eq_boxed ⟨some stringType, 7⟩ ⟨some ⟨stringType⟩, 7⟩ stringType 8
        (by intro xt h _; cases h; exact ⟨rfl, rfl, rfl, rfl⟩)
        (by intro tab h _; cases h; exact ⟨rfl, rfl, rfl, rfl⟩)).1,
      (valeq_eq_boxed ⟨some stringType, 7⟩ ⟨some ⟨stringType⟩, 7⟩ stringType 8
        (by intro xt h _; cases h; exact ⟨rfl, rfl, rfl, rfl⟩)
        (by intro tab h _; cases h; exact ⟨rfl, rfl, rfl, rfl⟩)).2.1⟩,
    (valeq_eq_boxed ⟨none, 0⟩ ⟨none, 0⟩ ptrType 7
        (by intro xt h; cases h) (by intro tab h; cases h)).2.2.2.1 funcType 7 rfl,
    rfl, rfl, rfl⟩

/-- C19: after normalising the method-table representation with `norm`, the three
dispatchers agree: `ifaceeq(x, y)` has the outcome of `efaceeq(norm x, norm y)` and
`ifaceefaceeq(x, z)` the outcome of `efaceeq(norm x, z)`, for all operands. -/
theorem dispatchers_agree (x y : iface) (z : eface) :
    ifaceeq x y = efaceeq (norm x) (norm y) ∧ ifaceefaceeq x z = efaceeq (norm x) z := by
  refine ⟨?_, ifaceefaceeq_eq_efaceeq x z⟩
  rw [ifaceeq_eq_efaceeq]
  cases hx : x.tab <;> cases hy : y.tab <;> simp [norm, hx, hy]

/-! ## String equality and order -/

/-- The pair of bytes `firstDiff` reports is a pair of different bytes. -/
theorem firstDiff_ne (x y : List Nat) (n a b : Nat) (h : firstDiff x y n = some (a, b)) :
    a ≠ b := by
  induction x generalizing y n with
  | nil => simp [firstDiff] at h
  | cons c x ih =>
    cases y with
    | nil => simp [firstDiff] at h
    | cons d y =>
      cases n with
      | zero => simp [firstDiff] at h
      | succ n =>
        by_cases hcd : c = d
        · simp [firstDiff, hcd] at h
          exact ih y n h
        · simp [firstDiff, hcd] at h
          obtain ⟨h1, h2⟩ := h
          subst h1; subst h2
          exact hcd

/-- The byte-difference `memcmp` meets the contract. -/
theorem memcmpDiff_contract : MemcmpContract memcmpDiff := by
  intro x y n
  induction x generalizing y n with
  | nil => intro _ _; simp [firstDiff, memcmpDiff]
  | cons c x ih =>
    cases y with
    | nil => intro _ _; simp [firstDiff, memcmpDiff]
    | cons d y =>
      cases n with
      | zero => intro _ _; simp [firstDiff, memcmpDiff]
      | succ n =>
        intro h1 h2
        by_cases hcd : c = d
        · simp only [firstDiff, memcmpDiff, hcd, if_true]
          exact ih y n (by simpa using h1) (by simpa using h2)
        · simp only [firstDiff, memcmpDiff, hcd, if_false]
          by_cases hlt : c < d
          · simp only [hlt, if_true]; omega
          · simp only [hlt, if_false]; omega

/-- The sign-only `memcmp` meets the contract. -/
theorem memcmpSign_contract : MemcmpContract memcmpSign := by
  intro x y n
  induction x generalizing y n with
  | nil => intro _ _; simp [firstDiff, memcmpSign]
  | cons c x ih =>
    cases y with
    | nil => intro _ _; simp [firstDiff, memcmpSign]
    | cons d y =>
      cases n with
      | zero => intro _ _; simp [firstDiff, memcmpSign]
      | succ n =>
        intro h1 h2
        by_cases hcd : c = d
        · simp only [firstDiff, memcmpSign, hcd, if_true]
          exact ih y n (by simpa using h1) (by simpa using h2)
        · simp only [firstDiff, memcmpSign, hcd, if_false]
          by_cases hlt : c < d
          · simp [hlt]
          · simp [hlt]

/-- No differing pair within the first `n` bytes means the two prefixes of length `n` agree. -/
theorem firstDiff_eq_none_iff (x y : List Nat) (n : Nat) (hx : n ≤ x.length)
    (hy : n ≤ y.length) : firstDiff x y n = none ↔ x.take n = y.take n := by
  induction x generalizing y n with
  | nil =>
    have hn : n = 0 := by simpa using hx
    subst hn
    simp [firstDiff]
  | cons c x ih =>
    cases n with
    | zero => cases y <;> simp [firstDiff]
    | succ n =>
      cases y with
      | nil => simp at hy
      | cons d y =>
        by_cases hcd : c = d
        · simp only [firstDiff, hcd, if_true, List.take_succ_cons, List.cons.injEq, true_and]
          exact ih y n (by simpa using hx) (by simpa using hy)
        · simp [firstDiff, hcd]

/-- The reference comparison is decided by the first differing pair within the common length,
or else by the lengths. -/
theorem lexSign_eq_signOf (x y : List Nat) :
    lexSign x y = signOf (firstDiff x y (min x.length y.length)) x.length y.length := by
  induction x generalizing y with
  | nil => cases y <;> simp [lexSign, firstDiff, signOf]
  | cons c x ih =>
    cases y with
    | nil => simp [lexSign, firstDiff, signOf]
    | cons d y =>
      have hmin : min (c :: x).length (d :: y).length = min x.length y.length + 1 := by
        simp only [List.length_cons]; omega
      rw [hmin]
      by_cases hcd : c = d
      · subst hcd
        simp only [lexSign, firstDiff, lt_irrefl, if_false, if_true, List.length_cons]
        rw [ih y]
        cases firstDiff x y (min x.length y.length) with
        | none => simp only [signOf, Nat.add_lt_add_iff_right]
        | some ab => rfl
      · by_cases hlt : c < d
        · simp [lexSign, firstDiff, signOf, hcd, hlt]
        · have hgt : d < c := by omega
          simp [lexSign, firstDiff, signOf, hcd, hlt, hgt]

/-- What `cmpstring` returns: the reference sign when the common prefix agrees, and otherwise
the result of `memcmp`, which has the reference sign. -/
theorem cmpstring_eq (memcmp : List Nat → List Nat → Nat → Int) (hm : MemcmpContract memcmp)
    (x y : List Nat) :
    (firstDiff x y (min x.length y.length) = none
        ∧ cmpstring memcmp x y = lexSign x y)
      ∨ (∃ a b, firstDiff x y (min x.length y.length) = some (a, b)
        ∧ cmpstring memcmp x y = memcmp x y (min x.length y.length)
        ∧ Int.sign (memcmp x y (min x.length y.length)) = lexSign x y) := by
  have hl : (if x.length > y.length then y.length else x.length) = min x.length y.length := by
    split_ifs <;> omega
  have hc := hm x y (min x.length y.length) (Nat.min_le_left _ _) (Nat.min_le_right _ _)
  have hs := lexSign_eq_signOf x y
  cases hfd : firstDiff x y (min x.length y.length) with
  | none =>
    left
    rw [hfd] at hc hs
    simp only at hc
    refine ⟨rfl, ?_⟩
    simp only [cmpstring, hl, hc, hs, signOf]
    simp only [gt_iff_lt, bne_self_eq_false, Bool.false_eq_true, if_false]
  | some ab =>
    obtain ⟨a, b⟩ := ab
    right
    rw [hfd] at hc hs
    simp only at hc
    refine ⟨a, b, rfl, ?_, ?_⟩
    · have hne : memcmp x y (min x.length y.length) ≠ 0 := by
        split_ifs at hc <;> omega
      simp [cmpstring, hl, hne]
    · rw [hs]
      simp only [signOf]
      split_ifs at hc with hab
      · simp only [hab, if_true]; exact Int.sign_eq_neg_one_of_neg hc
      · simp only [hab, if_false]; exact Int.sign_eq_one_of_pos hc

/-- The reference comparison takes the values `-1`, `0` and `1` only. -/
theorem lexSign_values (x y : List Nat) :
    lexSign x y = -1 ∨ lexSign x y = 0 ∨ lexSign x y = 1 := by
  induction x generalizing y with
  | nil => cases y <;> simp [lexSign]
  | cons c x ih =>
    cases y with
    | nil => simp [lexSign]
    | cons d y =>
      simp only [lexSign]
      split_ifs
      · simp
      · simp
      · exact ih y

/-- The sign of `cmpstring` is the reference comparison. -/
theorem sign_cmpstring (memcmp : List Nat → List Nat → Nat → Int) (hm : MemcmpContract memcmp)
    (x y : List Nat) : Int.sign (cmpstring memcmp x y) = lexSign x y := by
  rcases cmpstring_eq memcmp hm x y with ⟨_, h⟩ | ⟨a, b, _, h1, h2⟩
  · rw [h]
    rcases lexSign_values x y with h | h | h <;> rw [h] <;> rfl
  · rw [h1, h2]

/-- Exchanging the operands negates the reference comparison. -/
theorem lexSign_swap (x y : List Nat) : lexSign y x = - lexSign x y := by
  induction x generalizing y with
  | nil => cases y <;> simp [lexSign]
  | cons c x ih =>
    cases y with
    | nil => simp [lexSign]
    | cons d y =>
      simp only [lexSign]
      rw [ih y]
      split_ifs <;> first | rfl | omega

/-- The reference comparison is zero exactly on equal sequences. -/
theorem lexSign_eq_zero_iff (x y : List Nat) : lexSign x y = 0 ↔ x = y := by
  induction x generalizing y with
  | nil => cases y <;> simp [lexSign]
  | cons c x ih =>
    cases y with
    | nil => simp [lexSign]
    | cons d y =>
      simp only [lexSign, List.cons.injEq]
      split_ifs with h1 h2
      · constructor
        · intro h; exact absurd h (by decide)
        · intro h; have := h.1; omega
      · constructor
        · intro h; exact absurd h (by decide)
        · intro h; have := h.1; omega
      · rw [ih y]
        constructor
        · intro h; exact ⟨by omega, h⟩
        · intro h; exact h.2

/-- The relation `lexSign x y ≤ 0` is transitive. -/
theorem lexSign_trans (x y z : List Nat) (hxy : lexSign x y ≤ 0) (hyz : lexSign y z ≤ 0) :
    lexSign x z ≤ 0 := by
  induction x generalizing y z with
  | nil => cases z <;> simp [lexSign]
  | cons a x ih =>
    cases y with
    | nil => simp [lexSign] at hxy
    | cons b y =>
      cases z with
      | nil => simp [lexSign] at hyz
      | cons c z =>
        simp only [lexSign] at hxy hyz ⊢
        split_ifs at hxy hyz ⊢ <;> first | omega | exact ih y z hxy hyz

/-- The reference comparison is `-1` exactly when the first sequence precedes the second. -/
theorem lexSign_neg_one_iff_precedes (x y : List Nat) : lexSign x y = -1 ↔ precedes x y := by
  induction x generalizing y with
  | nil =>
    cases y with
    | nil => simp [lexSign, precedes]
    | cons d y => simp [lexSign, precedes]
  | cons c x ih =>
    cases y with
    | nil => simp [lexSign, precedes]
    | cons d y =>
      have hmin : min (c :: x).length (d :: y).length = min x.length y.length + 1 := by
        simp only [List.length_cons]; omega
      by_cases hlt : c < d
      · simp only [lexSign, hlt, if_true, true_iff]
        left
        exact ⟨0, by rw [hmin]; omega, by simp, by simpa using hlt⟩
      · by_cases hgt : d < c
        · simp only [lexSign, hlt, hgt, if_true, if_false]
          constructor
          · intro h; omega
          · intro h
            exfalso
            rcases h with ⟨i, _, htake, hbyte⟩ | ⟨htake, _⟩
            · cases i with
              | zero => simp at hbyte; omega
              | succ i => simp at htake; omega
            · rw [hmin] at htake
              simp at htake
              omega
        · have hcd : c = d := by omega
          subst hcd
          simp only [lexSign, lt_irrefl, if_false]
          rw [ih y]
          unfold precedes
          rw [hmin]
          constructor
          · rintro (⟨i, hi, htake, hbyte⟩ | ⟨htake, hlen⟩)
            · left
              exact ⟨i + 1, by omega, by simpa using htake, by simpa using hbyte⟩
            · right
              exact ⟨by simpa using htake, by simpa using hlen⟩
          · rintro (⟨i, hi, htake, hbyte⟩ | ⟨htake, hlen⟩)
            · cases i with
              | zero => simp at hbyte
              | succ i =>
                left
                exact ⟨i, by omega, by simpa using htake, by simpa using hbyte⟩
            · right
              exact ⟨by simpa using htake, by simpa using hlen⟩

/-- A `memcmp` that meets the contract returns zero exactly on equal prefixes. -/
theorem memcmp_eq_zero_iff (memcmp : List Nat → List Nat → Nat → Int)
    (hm : MemcmpContract memcmp) (x y : List Nat) (n : Nat) (hx : n ≤ x.length)
    (hy : n ≤ y.length) : memcmp x y n = 0 ↔ x.take n = y.take n := by
  rw [← firstDiff_eq_none_iff x y n hx hy]
  have hc := hm x y n hx hy
  cases hfd : firstDiff x y n with
  | none =>
    rw [hfd] at hc
    simpa using hc
  | some ab =>
    obtain ⟨a, b⟩ := ab
    rw [hfd] at hc
    simp only at hc
    constructor
    · intro h0
      split_ifs at hc <;> omega
    · intro h
      cases h

/-- The relation `cmpstring x y ≤ 0` is the relation `lexSign x y ≤ 0`. -/
theorem cmpstring_nonpos_iff (memcmp : List Nat → List Nat → Nat → Int)
    (hm : MemcmpContract memcmp) (x y : List Nat) :
    cmpstring memcmp x y ≤ 0 ↔ lexSign x y ≤ 0 := by
  rw [← sign_cmpstring memcmp hm x y]
  rcases lt_trichotomy (cmpstring memcmp x y) 0 with h | h | h
  · rw [Int.sign_eq_neg_one_of_neg h]
    constructor
    · intro _; decide
    · intro _; omega
  · rw [h]
    simp
  · rw [Int.sign_eq_one_of_pos h]
    constructor
    · intro h2; omega
    · intro h2; exact absurd h2 (by decide)

/-- C12: `eqstring(x, y)` is true iff `x` and `y` have the same length and the same byte at
every position; `eqstring("", "")` is true, `eqstring("a", "")` is false, and on a length
mismatch the result is false whatever `memcmp` would return. -/
theorem eqstring_iff (memcmp : List Nat → List Nat → Nat → Int) (hm : MemcmpContract memcmp)
    (x y : List Nat) :
    (eqstring memcmp x y = true
        ↔ x.length = y.length ∧ ∀ i, i < x.length → x[i]? = y[i]?)
      ∧ eqstring memcmp [] [] = true
      ∧ eqstring memcmp [97] [] = false
      ∧ (∀ f : List Nat → List Nat → Nat → Int, x.length ≠ y.length →
          eqstring f x y = false) := by
  refine ⟨?_, ?_, ?_, ?_⟩
  · by_cases hlen : x.length = y.length
    · have h0 := memcmp_eq_zero_iff memcmp hm x y x.length (le_refl _) (by omega)
      have hty : y.take x.length = y := by rw [hlen]; exact List.take_length y
      rw [List.take_length, hty] at h0
      simp only [eqstring, hlen, bne_self_eq_false, Bool.false_eq_true, if_false, beq_iff_eq,
        true_and]
      rw [← hlen, h0]
      constructor
      · intro h i _
        rw [h]
      · intro h
        apply List.ext_getElem?
        intro i
        by_cases hi : i < x.length
        · exact h i hi
        · rw [List.getElem?_eq_none (by omega), List.getElem?_eq_none (by omega)]
    · simp [eqstring, hlen]
  · have h0 := memcmp_eq_zero_iff memcmp hm [] [] 0 (le_refl _) (le_refl _)
    simp [eqstring, h0]
  · simp [eqstring]
  · intro f hlen
    simp [eqstring, hlen]

/-- C13: the sign of `cmpstring(x, y)` is the lexicographic order of the two byte sequences:
negative iff `x` precedes `y`, zero iff `x = y`, positive iff `y` precedes `x`; and the
relation `cmpstring(x, y) ≤ 0` is reflexive, antisymmetric, transitive and total. -/
theorem cmpstring_order (memcmp : List Nat → List Nat → Nat → Int)
    (hm : MemcmpContract memcmp) :
    (∀ x y, (cmpstring memcmp x y < 0 ↔ precedes x y)
        ∧ (cmpstring memcmp x y = 0 ↔ x = y)
        ∧ (0 < cmpstring memcmp x y ↔ precedes y x))
      ∧ (∀ x, cmpstring memcmp x x ≤ 0)
      ∧ (∀ x y, cmpstring memcmp x y ≤ 0 → cmpstring memcmp y x ≤ 0 → x = y)
      ∧ (∀ x y z, cmpstring memcmp x y ≤ 0 → cmpstring memcmp y z ≤ 0 →
          cmpstring memcmp x z ≤ 0)
      ∧ (∀ x y, cmpstring memcmp x y ≤ 0 ∨ cmpstring memcmp y x ≤ 0) := by
  refine ⟨?_, ?_, ?_, ?_, ?_⟩
  · intro x y
    have hs := sign_cmpstring memcmp hm x y
    refine ⟨?_, ?_, ?_⟩
    · rw [← lexSign_neg_one_iff_precedes, ← hs]
      exact Int.sign_eq_neg_one_iff_neg.symm
    · rw [← lexSign_eq_zero_iff, ← hs]
      exact Int.sign_eq_zero_iff_zero.symm
    · rw [← lexSign_neg_one_iff_precedes, lexSign_swap, ← hs]
      constructor
      · intro h
        rw [Int.sign_eq_one_of_pos h]
      · intro h
        apply Int.sign_eq_one_iff_pos.mp
        omega
  · intro x
    rw [cmpstring_nonpos_iff memcmp hm, (lexSign_eq_zero_iff x x).mpr rfl]
  · intro x y h1 h2
    rw [cmpstring_nonpos_iff memcmp hm] at h1 h2
    rw [lexSign_swap] at h2
    exact (lexSign_eq_zero_iff x y).mp (by omega)
  · intro x y z h1 h2
    rw [cmpstring_nonpos_iff memcmp hm] at h1 h2 ⊢
    exact lexSign_trans x y z h1 h2
  · intro x y
    rw [cmpstring_nonpos_iff memcmp hm, cmpstring_nonpos_iff memcmp hm, lexSign_swap x y]
    omega

/-- Witness of C12: the string "ab" against itself, under the byte-difference `memcmp`. -/
theorem eqstring_iff_witness :
    MemcmpContract memcmpDiff ∧ eqstring memcmpDiff [97, 98] [97, 98] = true :=
  ⟨memcmpDiff_contract,
    (eqstring_iff memcmpDiff memcmpDiff_contract [97, 98] [97, 98]).1.2
      ⟨rfl, fun _ _ => rfl⟩⟩

/-- Witness of C13: "ab" precedes "abc", under the byte-difference `memcmp`. -/
theorem cmpstring_order_witness :
    MemcmpContract memcmpDiff ∧ cmpstring memcmpDiff [97, 98] [97, 98, 99] < 0 :=
  ⟨memcmpDiff_contract,
    ((cmpstring_order memcmpDiff memcmpDiff_contract).1 [97, 98] [97, 98, 99]).1.2
      (Or.inr ⟨rfl, by decide⟩)⟩

/-- C14, as stated, fails: with a `memcmp` that returns the difference of the differing bytes,
which the contract of `memcmp` allows, `cmpstring("c", "a")` is 2. -/
theorem cmpstring_values_counterexample :
    MemcmpContract memcmpDiff
      ∧ cmpstring memcmpDiff [99] [97] = 2
      ∧ ¬ (cmpstring memcmpDiff [99] [97] = -1 ∨ cmpstring memcmpDiff [99] [97] = 0
        ∨ cmpstring memcmpDiff [99] [97] = 1) := by
  refine ⟨memcmpDiff_contract, by decide, by decide⟩

/-- C14, amended: when the first `min (len x) (len y)` bytes agree, `cmpstring(x, y)` is `-1`,
`0` or `1` according to the lengths; otherwise it is the non-zero result of `memcmp` itself
on those bytes, which need not be `-1` or `1`.  Hence `cmpstring("ab", "abc") = -1`,
`cmpstring("abc", "ab") = 1`, `cmpstring("abc", "abc") = 0`, and `cmpstring("b", "a")` is
positive. -/
theorem cmpstring_values (memcmp : List Nat → List Nat → Nat → Int)
    (hm : MemcmpContract memcmp) (x y : List Nat) :
    (x.take (min x.length y.length) = y.take (min x.length y.length) →
        cmpstring memcmp x y
          = if x.length < y.length then -1 else if y.length < x.length then 1 else 0)
      ∧ (x.take (min x.length y.length) ≠ y.take (min x.length y.length) →
        cmpstring memcmp x y = memcmp x y (min x.length y.length)
          ∧ memcmp x y (min x.length y.length) ≠ 0)
      ∧ cmpstring memcmp [97, 98] [97, 98, 99] = -1
      ∧ cmpstring memcmp [97, 98, 99] [97, 98] = 1
      ∧ cmpstring memcmp [97, 98, 99] [97, 98, 99] = 0
      ∧ 0 < cmpstring memcmp [98] [97] := by
  have key : ∀ u v : List Nat,
      u.take (min u.length v.length) = v.take (min u.length v.length) →
      cmpstring memcmp u v
        = if u.length < v.length then -1 else if v.length < u.length then 1 else 0 := by
    intro u v htake
    have hnone := (firstDiff_eq_none_iff u v (min u.length v.length) (Nat.min_le_left _ _)
      (Nat.min_le_right _ _)).mpr htake
    rcases cmpstring_eq memcmp hm u v with ⟨_, h⟩ | ⟨a, b, hsome, _, _⟩
    · rw [h, lexSign_eq_signOf, hnone]
      rfl
    · rw [hnone] at hsome
      cases hsome
  refine ⟨key x y, ?_, ?_, ?_, ?_, ?_⟩
  · intro htake
    have h0 := memcmp_eq_zero_iff memcmp hm x y (min x.length y.length) (Nat.min_le_left _ _)
      (Nat.min_le_right _ _)
    have hne : memcmp x y (min x.length y.length) ≠ 0 := fun h => htake (h0.mp h)
    rcases cmpstring_eq memcmp hm x y with ⟨hnone, _⟩ | ⟨a, b, _, h, _⟩
    · exact absurd ((firstDiff_eq_none_iff x y _ (Nat.min_le_left _ _)
        (Nat.min_le_right _ _)).mp hnone) htake
    · exact ⟨h, hne⟩
  · exact key [97, 98] [97, 98, 99] rfl
  · exact key [97, 98, 99] [97, 98] rfl
  · exact key [97, 98, 99] [97, 98, 99] rfl
  · have hs := sign_cmpstring memcmp hm [98] [97]
    exact Int.sign_eq_one_iff_pos.mp (by rw [hs]; decide)

/-- Witness of C14, amended: with the byte-difference `memcmp` and with the sign-only
`memcmp`, `cmpstring("b", "a")` is 1. -/
theorem cmpstring_values_witness :
    MemcmpContract memcmpDiff ∧ MemcmpContract memcmpSign
      ∧ (cmpstring memcmpDiff [98] [97] = memcmpDiff [98] [97] 1 ∧ memcmpDiff [98] [97] 1 ≠ 0)
      ∧ cmpstring memcmpDiff [98] [97] = 1
      ∧ cmpstring memcmpSign [98] [97] = 1
      ∧ 0 < cmpstring memcmpSign [98] [97] :=
  ⟨memcmpDiff_contract, memcmpSign_contract,
    (cmpstring_values memcmpDiff memcmpDiff_contract [98] [97]).2.1 (by decide),
    by decide, by decide,
    (cmpstring_values memcmpSign memcmpSign_contract [98] [97]).2.2.2.2.2⟩

/-! ## Seeding -/

/-- Testing a bit of a word with a mask, as `alginit` does, is testing that bit. -/
theorem and_bit_ne_zero (n k : Nat) : ((n &&& (1 <<< k)) != 0) = n.testBit k := by
  rw [Nat.one_shiftLeft, Nat.and_two_pow]
  cases h : n.testBit k <;> simp [h]

/-- C15: from the zero-valued state, `alginit` leaves `useAeshash` true iff the architecture
is 386 or amd64, the OS is not nacl, and bits 25, 9 and 19 of `cpuid_ecx` are set; when it is
true the random bytes are in `aeskeysched` and `hashkey` is untouched; when a condition fails
`useAeshash` is still false. -/
theorem alginit_useAeshash (GOARCH GOOS : String) (cpuid_ecx PtrSize : Nat) (bigEndian : Bool)
    (rand : Nat → Nat) :
    ((alginit GOARCH GOOS cpuid_ecx PtrSize bigEndian rand (zeroAlgState PtrSize)).useAeshash
          = true
        ↔ ((GOARCH = "386" ∨ GOARCH = "amd64") ∧ GOOS ≠ "nacl" ∧ cpuid_ecx.testBit 25 = true
          ∧ cpuid_ecx.testBit 9 = true ∧ cpuid_ecx.testBit 19 = true))
      ∧ ((alginit GOARCH GOOS cpuid_ecx PtrSize bigEndian rand (zeroAlgState PtrSize)).useAeshash
          = true →
        (alginit GOARCH GOOS cpuid_ecx PtrSize bigEndian rand (zeroAlgState PtrSize)).aeskeysched
            = getRandomData rand (hashRandomBytes PtrSize)
          ∧ (alginit GOARCH GOOS cpuid_ecx PtrSize bigEndian rand
              (zeroAlgState PtrSize)).hashkey = (zeroAlgState PtrSize).hashkey)
      ∧ (¬ ((GOARCH = "386" ∨ GOARCH = "amd64") ∧ GOOS ≠ "nacl" ∧ cpuid_ecx.testBit 25 = true
          ∧ cpuid_ecx.testBit 9 = true ∧ cpuid_ecx.testBit 19 = true) →
        (alginit GOARCH GOOS cpuid_ecx PtrSize bigEndian rand (zeroAlgState PtrSize)).useAeshash
          = false) := by
  simp only [alginit, and_bit_ne_zero]
  split_ifs with h
  · simp only [Bool.and_eq_true, Bool.or_eq_true, beq_iff_eq, bne_iff_ne, ne_eq] at h
    obtain ⟨⟨⟨⟨h1, h2⟩, h3⟩, h4⟩, h5⟩ := h
    exact ⟨⟨fun _ => ⟨h1, h2, h3, h4, h5⟩, fun _ => rfl⟩, fun _ => ⟨rfl, rfl⟩,
      fun hc => absurd ⟨h1, h2, h3, h4, h5⟩ hc⟩
  · simp only [Bool.and_eq_true, Bool.or_eq_true, beq_iff_eq, bne_iff_ne, ne_eq] at h
    refine ⟨⟨fun hf => ?_, fun hc => ?_⟩, fun hf => ?_, fun _ => rfl⟩
    · simp [zeroAlgState] at hf
    · exact absurd ⟨⟨⟨⟨hc.1, hc.2.1⟩, hc.2.2.1⟩, hc.2.2.2.1⟩, hc.2.2.2.2⟩ h
    · simp [zeroAlgState] at hf

/-- Witness of C15: an amd64 host whose `cpuid_ecx` has exactly the bits 25, 19 and 9 set, and
an arm host with the same word. -/
theorem alginit_useAeshash_witness :
    ((alginit "amd64" "linux" 34079232 8 false sampleRand (zeroAlgState 8)).aeskeysched
          = getRandomData sampleRand 128
        ∧ (alginit "amd64" "linux" 34079232 8 false sampleRand (zeroAlgState 8)).hashkey
          = [0, 0, 0, 0])
      ∧ (alginit "arm" "linux" 34079232 4 false sampleRand (zeroAlgState 4)).useAeshash
          = false :=
  ⟨(alginit_useAeshash "amd64" "linux" 34079232 8 false sampleRand).2.1 (by decide),
    (alginit_useAeshash "arm" "linux" 34079232 4 false sampleRand).2.2 (by decide)⟩

/-- The bytes of `hashkey[i]` after `getRandomData`: the random bytes numbered from
`i * PtrSize`. -/
theorem hashkey_bytes (PtrSize : Nat) (rand : Nat → Nat) (i : Nat) (hi : i < 4) :
    ((getRandomData rand (4 * PtrSize)).drop (i * PtrSize)).take PtrSize
      = (List.range PtrSize).map (fun j => rand (i * PtrSize + j) % 256) := by
  have hle : i * PtrSize ≤ 3 * PtrSize := Nat.mul_le_mul_right PtrSize (by omega)
  apply List.ext_getElem
  · simp [getRandomData]
    omega
  · intro n h1 h2
    simp [getRandomData]

/-- The word a little-endian machine reads from `n` bytes. -/
theorem foldr_bytes (g : Nat → Nat) (n : Nat) :
    ((List.range n).map g).foldr (fun b acc => b + 256 * acc) 0
      = ∑ j in Finset.range n, g j * 256 ^ j := by
  induction n generalizing g with
  | zero => simp
  | succ n ih =>
    rw [List.range_succ_eq_map, List.map_cons, List.foldr_cons, List.map_map, ih,
      Finset.sum_range_succ', Finset.mul_sum]
    simp only [Function.comp_apply, pow_zero, mul_one]
    rw [add_comm]
    congr 1
    apply Finset.sum_congr rfl
    intro j _
    rw [pow_succ]
    ring

/-- The word a big-endian machine reads from `n` bytes. -/
theorem foldl_bytes (g : Nat → Nat) (n : Nat) :
    ((List.range n).map g).foldl (fun acc b => acc * 256 + b) 0
      = ∑ j in Finset.range n, g j * 256 ^ (n - 1 - j) := by
  induction n with
  | zero => simp
  | succ n ih =>
    rw [List.range_succ, List.map_append, List.foldl_append, ih, Finset.sum_range_succ]
    simp only [List.map_cons, List.map_nil, List.foldl_cons, List.foldl_nil,
      Nat.add_sub_cancel, Nat.sub_self, pow_zero, mul_one]
    rw [Finset.sum_mul]
    congr 1
    apply Finset.sum_congr rfl
    intro j hj
    have hj2 : j < n := Finset.mem_range.mp hj
    have : n - j = (n - 1 - j) + 1 := by omega
    rw [this, pow_succ]
    ring

/-- The word `alginit` finds in `hashkey[i]` after `getRandomData` is the word supplied by the
random source. -/
theorem randomWord_eq_suppliedWord (PtrSize : Nat) (bigEndian : Bool) (rand : Nat → Nat)
    (i : Nat) (hi : i < 4) :
    randomWord PtrSize bigEndian rand i = suppliedWord PtrSize bigEndian rand i := by
  unfold randomWord suppliedWord wordOfBytes
  rw [hashkey_bytes PtrSize rand i hi]
  cases bigEndian with
  | false =>
    simp only [Bool.false_eq_true, if_false]
    exact foldr_bytes _ _
  | true =>
    simp only [if_true]
    exact foldl_bytes _ _

/-- On a host that takes the software fallback, no sequence of calls of `alginit` writes
`useAeshash` or `aeskeysched`. -/
theorem alginitCalls_fallback (GOARCH GOOS : String) (cpuid_ecx PtrSize : Nat)
    (bigEndian : Bool)
    (hcond : ((GOARCH == "386" || GOARCH == "amd64") && GOOS != "nacl" &&
      cpuid_ecx.testBit 25 && cpuid_ecx.testBit 9 && cpuid_ecx.testBit 19) = false)
    (calls : List (Nat → Nat)) :
    (alginitCalls GOARCH GOOS cpuid_ecx PtrSize bigEndian calls).useAeshash = false
      ∧ (alginitCalls GOARCH GOOS cpuid_ecx PtrSize bigEndian calls).aeskeysched
        = List.replicate (hashRandomBytes PtrSize) 0 := by
  induction calls with
  | nil => exact ⟨rfl, rfl⟩
  | cons rand earlier ih =>
    simp only [alginitCalls, alginit, and_bit_ne_zero, hcond]
    exact ih

/-- C16: whenever `alginit` takes the software fallback, for every random source each of the
four words of `hashkey` is the word supplied by the random source with its lowest bit set: it
is odd and its other bits are those of the supplied word; `useAeshash` and `aeskeysched` are
not written, and `useAeshash` is false, in whatever state the program can be when `alginit`
is entered on that host (the zero-valued variables, or what earlier calls left). -/
theorem alginit_fallback (GOARCH GOOS : String) (cpuid_ecx PtrSize : Nat) (bigEndian : Bool)
    (rand : Nat → Nat) (s : AlgState)
    (hfb : ¬ ((GOARCH = "386" ∨ GOARCH = "amd64") ∧ GOOS ≠ "nacl" ∧ cpuid_ecx.testBit 25 = true
      ∧ cpuid_ecx.testBit 9 = true ∧ cpuid_ecx.testBit 19 = true)) :
    (alginit GOARCH GOOS cpuid_ecx PtrSize bigEndian rand s).hashkey
        = [suppliedWord PtrSize bigEndian rand 0 ||| 1, suppliedWord PtrSize bigEndian rand 1 ||| 1,
            suppliedWord PtrSize bigEndian rand 2 ||| 1,
            suppliedWord PtrSize bigEndian rand 3 ||| 1]
      ∧ (∀ i, i < 4 →
          (alginit GOARCH GOOS cpuid_ecx PtrSize bigEndian rand s).hashkey.getD i 0 % 2 = 1
            ∧ (alginit GOARCH GOOS cpuid_ecx PtrSize bigEndian rand s).hashkey.getD i 0 / 2
              = suppliedWord PtrSize bigEndian rand i / 2)
      ∧ (alginit GOARCH GOOS cpuid_ecx PtrSize bigEndian rand s).useAeshash = s.useAeshash
      ∧ (alginit GOARCH GOOS cpuid_ecx PtrSize bigEndian rand s).aeskeysched = s.aeskeysched
      ∧ (∀ earlier : List (Nat → Nat),
          (alginit GOARCH GOOS cpuid_ecx PtrSize bigEndian rand
              (alginitCalls GOARCH GOOS cpuid_ecx PtrSize bigEndian earlier)).useAeshash = false
            ∧ (alginit GOARCH GOOS cpuid_ecx PtrSize bigEndian rand
              (alginitCalls GOARCH GOOS cpuid_ecx PtrSize bigEndian earlier)).aeskeysched
              = List.replicate (hashRandomBytes PtrSize) 0) := by
  have hcond : ((GOARCH == "386" || GOARCH == "amd64") && GOOS != "nacl" &&
      cpuid_ecx.testBit 25 && cpuid_ecx.testBit 9 && cpuid_ecx.testBit 19) = false := by
    rw [Bool.eq_false_iff]
    intro h
    simp only [Bool.and_eq_true, Bool.or_eq_true, beq_iff_eq, bne_iff_ne, ne_eq] at h
    exact hfb ⟨h.1.1.1.1, h.1.1.1.2, h.1.1.2, h.1.2, h.2⟩
  have hkey : (alginit GOARCH GOOS cpuid_ecx PtrSize bigEndian rand s).hashkey
      = [suppliedWord PtrSize bigEndian rand 0 ||| 1, suppliedWord PtrSize bigEndian rand 1 ||| 1,
          suppliedWord PtrSize bigEndian rand 2 ||| 1,
          suppliedWord PtrSize bigEndian rand 3 ||| 1] := by
    simp only [alginit, and_bit_ne_zero, hcond]
    rw [randomWord_eq_suppliedWord PtrSize bigEndian rand 0 (by decide),
      randomWord_eq_suppliedWord PtrSize bigEndian rand 1 (by decide),
      randomWord_eq_suppliedWord PtrSize bigEndian rand 2 (by decide),
      randomWord_eq_suppliedWord PtrSize bigEndian rand 3 (by decide)]
    rfl
  have hbit : ∀ w : Nat, (w ||| 1) % 2 = 1 ∧ (w ||| 1) / 2 = w / 2 := by
    intro w
    constructor
    · exact Nat.or_mod_two_eq_one.mpr (Or.inr rfl)
    · rw [Nat.or_div_two]
      simp
  refine ⟨hkey, ?_, ?_, ?_, ?_⟩
  · intro i hi
    rw [hkey]
    interval_cases i
    · exact hbit _
    · exact hbit _
    · exact hbit _
    · exact hbit _
  · simp only [alginit, and_bit_ne_zero, hcond]
    rfl
  · simp only [alginit, and_bit_ne_zero, hcond]
    rfl
  · intro earlier
    have h := alginitCalls_fallback GOARCH GOOS cpuid_ecx PtrSize bigEndian hcond
      (rand :: earlier)
    simpa only [alginitCalls] using h

/-- Witness of C16: 32-bit hosts whose random source supplies the bytes `2, 9, 16, 23, 30, ...`.
On a little-endian host the first word is `2 + 9 * 256 + 16 * 65536 + 23 * 16777216`, made
odd; on a big-endian host it is `2 * 16777216 + 9 * 65536 + 16 * 256 + 23`, odd already; and
a second call of `alginit` leaves `useAeshash` false. -/
theorem alginit_fallback_witness :
    (alginit "arm" "linux" 34079232 4 false sampleRand (zeroAlgState 4)).hashkey
        = [386926851, 858531103, 1330135355, 1801739607]
      ∧ (alginit "mips" "linux" 34079232 4 true sampleRand (zeroAlgState 4)).hashkey
        = [34148375, 505752627, 977356879, 1448961131]
      ∧ ((alginit "arm" "linux" 34079232 4 false sampleRand (zeroAlgState 4)).hashkey.getD 0 0
            % 2 = 1
          ∧ (alginit "arm" "linux" 34079232 4 false sampleRand (zeroAlgState 4)).hashkey.getD 0 0
            / 2 = suppliedWord 4 false sampleRand 0 / 2)
      ∧ (alginit "arm" "linux" 34079232 4 false sampleRand
          (alginitCalls "arm" "linux" 34079232 4 false [sampleRand])).useAeshash = false :=
  ⟨(alginit_fallback "arm" "linux" 34079232 4 false sampleRand (zeroAlgState 4)
      (by decide)).1,
    (alginit_fallback "mips" "linux" 34079232 4 true sampleRand (zeroAlgState 4)
      (by decide)).1,
    (alginit_fallback "arm" "linux" 34079232 4 false sampleRand (zeroAlgState 4)
      (by decide)).2.1 0 (by decide),
    ((alginit_fallback "arm" "linux" 34079232 4 false sampleRand (zeroAlgState 4)
      (by decide)).2.2.2.2 [sampleRand]).1⟩

/-! ## The two mixing constants -/

/-- C18: for `PtrSize = 4` the constant expressions evaluate to `c0 = 2860486313` and
`c1 = 3267000013`, for `PtrSize = 8` to `c0 = 33054211828000289` and
`c1 = 23344194077549503`; the four values are odd, each is below `2 ^ 32`, respectively
`2 ^ 64`, so the conversion to `uintptr` does not truncate, and the two pairs differ. -/
theorem c0_c1_values :
    (c0Expr 4 = 2860486313 ∧ c1Expr 4 = 3267000013
        ∧ c0Expr 8 = 33054211828000289 ∧ c1Expr 8 = 23344194077549503)
      ∧ (c0 4 = 2860486313 ∧ c1 4 = 3267000013
        ∧ c0 8 = 33054211828000289 ∧ c1 8 = 23344194077549503)
      ∧ (c0 4 % 2 = 1 ∧ c1 4 % 2 = 1 ∧ c0 8 % 2 = 1 ∧ c1 8 % 2 = 1)
      ∧ (c0Expr 4 < 2 ^ 32 ∧ c1Expr 4 < 2 ^ 32 ∧ c0Expr 8 < 2 ^ 64 ∧ c1Expr 8 < 2 ^ 64)
      ∧ (wordMod 4 = 2 ^ 32 ∧ wordMod 8 = 2 ^ 64)
      ∧ ((c0 4 : Int) = c0Expr 4 ∧ (c1 4 : Int) = c1Expr 4
        ∧ (c0 8 : Int) = c0Expr 8 ∧ (c1 8 : Int) = c1Expr 8)
      ∧ (c0 4 ≠ c0 8 ∧ c1 4 ≠ c1 8) := by
  refine ⟨by decide, by decide, by decide, by decide, by decide, by decide, by decide⟩

/-- On a 32-bit and on a 64-bit machine `c1` is odd. -/
theorem c1_odd (PtrSize : Nat) (hP : PtrSize = 4 ∨ PtrSize = 8) : c1 PtrSize % 2 = 1 := by
  rcases hP with h | h <;> subst h <;> decide

/-- On a 32-bit and on a 64-bit machine `c0` is not zero. -/
theorem c0_ne_zero (PtrSize : Nat) (hP : PtrSize = 4 ∨ PtrSize = 8) : c0 PtrSize ≠ 0 := by
  rcases hP with h | h <;> subst h <;> decide

/-- On a 32-bit and on a 64-bit machine `c1` has an inverse modulo `2 ^ w`. -/
theorem c1_coprime (PtrSize : Nat) (hP : PtrSize = 4 ∨ PtrSize = 8) :
    Nat.gcd (wordMod PtrSize) (c1 PtrSize) = 1 := by
  have hodd := c1_odd PtrSize hP
  have h2 : Nat.Coprime 2 (c1 PtrSize) :=
    Nat.coprime_two_left.mpr (Nat.odd_iff.mpr hodd)
  exact Nat.Coprime.pow_left _ h2

/-- Multiplication by `c1` modulo `2 ^ w` is injective on machine words. -/
theorem c1_mul_inj (PtrSize : Nat) (hP : PtrSize = 4 ∨ PtrSize = 8) (r1 r2 : Nat)
    (h1 : r1 < wordMod PtrSize) (h2 : r2 < wordMod PtrSize) :
    (c1 PtrSize * r1) % wordMod PtrSize = (c1 PtrSize * r2) % wordMod PtrSize ↔ r1 = r2 := by
  constructor
  · intro h
    have hmod : r1 ≡ r2 [MOD wordMod PtrSize] :=
      Nat.ModEq.cancel_left_of_coprime (c1_coprime PtrSize hP) h
    have h3 : r1 % wordMod PtrSize = r2 % wordMod PtrSize := hmod
    rwa [Nat.mod_eq_of_lt h1, Nat.mod_eq_of_lt h2] at h3
  · intro h
    rw [h]

/-- Multiplication by `c1` modulo `2 ^ w` keeps the lowest bit. -/
theorem c1_mul_mod_two (PtrSize : Nat) (hP : PtrSize = 4 ∨ PtrSize = 8) (r : Nat) :
    ((c1 PtrSize * r) % wordMod PtrSize) % 2 = r % 2 := by
  have hdvd : 2 ∣ wordMod PtrSize := by
    rcases hP with h | h <;> subst h <;> decide
  rw [Nat.mod_mod_of_dvd _ hdvd, Nat.mul_mod, c1_odd PtrSize hP]
  simp

/-! ## The wrapping of the inner hash -/

/-- C17, as stated, fails: for a type whose hash function returns zero on every input, the
dynamic hash of a value is the hash of its naked payload under the same seed. -/
theorem interhash_naked_counterexample :
    zeroHashType.hashfn = some zeroHash
      ∧ interhash 8 (constHeap (some zeroHashType) 77) 16 5 16 = .ok (zeroHash 77 5 8)
      ∧ nilinterhash 8 (constHeap (some zeroHashType) 77) 16 5 16 = .ok (zeroHash 77 5 8)
      ∧ (c1 8 * zeroHash 77 (5 ^^^ c0 8) 8) % wordMod 8 = zeroHash 77 5 8 :=
  ⟨rfl, rfl, rfl, rfl⟩

/-- C17, amended: on a 32-bit or 64-bit machine, for a non-nil value whose descriptor has the
hash function `fn` and for every seed `h`, the seed handed to `fn` is not `h`, and the dynamic
hash is different from `fn(dataPointer, h, size)` whenever the two inner results
`fn(dataPointer, h XOR c0, size)` and `fn(dataPointer, h, size)` differ in their lowest
bit. -/
theorem interhash_naked (PtrSize : Nat) (hP : PtrSize = 4 ∨ PtrSize = 8) (mem : Heap)
    (p q h size d e : Nat) (t : _type) (fn : Nat → Nat → Nat → Nat)
    (hfn : t.hashfn = some fn)
    (hp : mem.loadIface p = { tab := some { typ := t }, data := d })
    (hq : mem.loadEface q = { _type := some t, data := e })
    (hbitp : fn (if isDirectIface t then dataAddr PtrSize p else d) (h ^^^ c0 PtrSize) t.size % 2
      ≠ fn (if isDirectIface t then dataAddr PtrSize p else d) h t.size % 2)
    (hbitq : fn (if isDirectIface t then dataAddr PtrSize q else e) (h ^^^ c0 PtrSize) t.size % 2
      ≠ fn (if isDirectIface t then dataAddr PtrSize q else e) h t.size % 2) :
    h ^^^ c0 PtrSize ≠ h
      ∧ interhash PtrSize mem p h size
        ≠ .ok (fn (if isDirectIface t then dataAddr PtrSize p else d) h t.size)
      ∧ nilinterhash PtrSize mem q h size
        ≠ .ok (fn (if isDirectIface t then dataAddr PtrSize q else e) h t.size) := by
  refine ⟨?_, ?_, ?_⟩
  · intro hx
    have h0 : h ^^^ c0 PtrSize = h ^^^ 0 := by rw [hx, Nat.xor_zero]
    exact c0_ne_zero PtrSize hP (Nat.xor_right_inj.mp h0)
  · intro heq
    have hval : interhash PtrSize mem p h size
        = .ok ((c1 PtrSize * fn (if isDirectIface t then dataAddr PtrSize p else d)
            (h ^^^ c0 PtrSize) t.size) % wordMod PtrSize) := by
      simp only [interhash, hp, hfn]
      by_cases hd : isDirectIface t = true <;> simp [hd]
    rw [hval, Except.ok.injEq] at heq
    apply hbitp
    rw [← heq]
    exact (c1_mul_mod_two PtrSize hP _).symm
  · intro heq
    have hval : nilinterhash PtrSize mem q h size
        = .ok ((c1 PtrSize * fn (if isDirectIface t then dataAddr PtrSize q else e)
            (h ^^^ c0 PtrSize) t.size) % wordMod PtrSize) := by
      simp only [nilinterhash, hq, hfn]
      by_cases hd : isDirectIface t = true <;> simp [hd]
    rw [hval, Except.ok.injEq] at heq
    apply hbitq
    rw [← heq]
    exact (c1_mul_mod_two PtrSize hP _).symm

/-- Witness of C17, amended: a pointer value on a 64-bit machine, hashed with a function that
adds its seed to a term that does not depend on the seed. -/
theorem interhash_naked_witness :
    5 ^^^ c0 8 ≠ 5
      ∧ interhash 8 (constHeap (some ptrType) 77) 16 5 16 ≠ .ok (sampleHash 24 5 8)
      ∧ nilinterhash 8 (constHeap (some ptrType) 77) 16 5 16 ≠ .ok (sampleHash 24 5 8) :=
  interhash_naked 8 (Or.inr rfl) (constHeap (some ptrType) 77) 16 16 5 16 77 77 ptrType
    sampleHash rfl rfl rfl (by decide) (by decide)

/-- C20: on a 32-bit or 64-bit machine, for two non-nil hashable values with the inner results
`r1 = fn1(ptr1, h1 XOR c0, size1)` and `r2 = fn2(ptr2, h2 XOR c0, size2)`, both machine
words, `interhash` returns equal words iff `r1 = r2`, and so does `nilinterhash`; and two
seeds reach the inner hash function as the same seed iff they are the same seed. -/
theorem interhash_collision_iff (PtrSize : Nat) (hP : PtrSize = 4 ∨ PtrSize = 8) (mem : Heap)
    (p1 p2 h1 h2 size d1 d2 : Nat) (t1 t2 : _type) (fn1 fn2 : Nat → Nat → Nat → Nat)
    (hfn1 : t1.hashfn = some fn1) (hfn2 : t2.hashfn = some fn2)
    (hp1 : mem.loadIface p1 = { tab := some { typ := t1 }, data := d1 })
    (hp2 : mem.loadIface p2 = { tab := some { typ := t2 }, data := d2 })
    (hq1 : mem.loadEface p1 = { _type := some t1, data := d1 })
    (hq2 : mem.loadEface p2 = { _type := some t2, data := d2 })
    (hr1 : fn1 (if isDirectIface t1 then dataAddr PtrSize p1 else d1) (h1 ^^^ c0 PtrSize) t1.size
      < wordMod PtrSize)
    (hr2 : fn2 (if isDirectIface t2 then dataAddr PtrSize p2 else d2) (h2 ^^^ c0 PtrSize) t2.size
      < wordMod PtrSize) :
    (interhash PtrSize mem p1 h1 size = interhash PtrSize mem p2 h2 size
        ↔ fn1 (if isDirectIface t1 then dataAddr PtrSize p1 else d1) (h1 ^^^ c0 PtrSize) t1.size
          = fn2 (if isDirectIface t2 then dataAddr PtrSize p2 else d2) (h2 ^^^ c0 PtrSize)
            t2.size)
      ∧ (nilinterhash PtrSize mem p1 h1 size = nilinterhash PtrSize mem p2 h2 size
        ↔ fn1 (if isDirectIface t1 then dataAddr PtrSize p1 else d1) (h1 ^^^ c0 PtrSize) t1.size
          = fn2 (if isDirectIface t2 then dataAddr PtrSize p2 else d2) (h2 ^^^ c0 PtrSize)
            t2.size)
      ∧ (h1 ^^^ c0 PtrSize = h2 ^^^ c0 PtrSize ↔ h1 = h2) := by
  have hi1 : interhash PtrSize mem p1 h1 size
      = .ok ((c1 PtrSize * fn1 (if isDirectIface t1 then dataAddr PtrSize p1 else d1)
          (h1 ^^^ c0 PtrSize) t1.size) % wordMod PtrSize) := by
    simp only [interhash, hp1, hfn1]
    by_cases hd : isDirectIface t1 = true <;> simp [hd]
  have hi2 : interhash PtrSize mem p2 h2 size
      = .ok ((c1 PtrSize * fn2 (if isDirectIface t2 then dataAddr PtrSize p2 else d2)
          (h2 ^^^ c0 PtrSize) t2.size) % wordMod PtrSize) := by
    simp only [interhash, hp2, hfn2]
    by_cases hd : isDirectIface t2 = true <;> simp [hd]
  have hn1 : nilinterhash PtrSize mem p1 h1 size
      = .ok ((c1 PtrSize * fn1 (if isDirectIface t1 then dataAddr PtrSize p1 else d1)
          (h1 ^^^ c0 PtrSize) t1.size) % wordMod PtrSize) := by
    simp only [nilinterhash, hq1, hfn1]
    by_cases hd : isDirectIface t1 = true <;> simp [hd]
  have hn2 : nilinterhash PtrSize mem p2 h2 size
      = .ok ((c1 PtrSize * fn2 (if isDirectIface t2 then dataAddr PtrSize p2 else d2)
          (h2 ^^^ c0 PtrSize) t2.size) % wordMod PtrSize) := by
    simp only [nilinterhash, hq2, hfn2]
    by_cases hd : isDirectIface t2 = true <;> simp [hd]
  refine ⟨?_, ?_, Nat.xor_left_inj⟩
  · rw [hi1, hi2, Except.ok.injEq]
    exact c1_mul_inj PtrSize hP _ _ hr1 hr2
  · rw [hn1, hn2, Except.ok.injEq]
    exact c1_mul_inj PtrSize hP _ _ hr1 hr2

/-- Witness of C20: the pointer values stored at the addresses 16 and 32 of a 64-bit machine,
hashed under the seeds 5 and 6. -/
theorem interhash_collision_iff_witness :
    (interhash 8 (constHeap (some ptrType) 77) 16 5 16
          = interhash 8 (constHeap (some ptrType) 77) 32 6 16
        ↔ sampleHash 24 (5 ^^^ c0 8) 8 = sampleHash 40 (6 ^^^ c0 8) 8)
      ∧ (5 ^^^ c0 8 = 6 ^^^ c0 8 ↔ 5 = 6) :=
  ⟨(interhash_collision_iff 8 (Or.inr rfl) (constHeap (some ptrType) 77) 16 32 5 6 16 77 77
      ptrType ptrType sampleHash sampleHash rfl rfl rfl rfl rfl rfl (by decide) (by decide)).1,
    (interhash_collision_iff 8 (Or.inr rfl) (constHeap (some ptrType) 77) 16 32 5 6 16 77 77
      ptrType ptrType sampleHash sampleHash rfl rfl rfl rfl rfl rfl (by decide)
      (by decide)).2.2⟩

end Runtime
